import Mathlib

/-!
# The file loader store of ParaView Glance (`src/store/fileLoader.js`)

A shallow embedding of the Vuex module: its state, getters, mutations and
actions, followed by theorems about them.

Modelling conventions.

* A JavaScript value that may be `null`/`undefined` is an `Option`.
* Promises are modelled by their eventual outcome (`Promise`): resolved,
  rejected, or never settled.  An action is a function from the store state
  to the store state reached once the promise chain of that action has run,
  together with the outcome of the promise the action returns.  The
  continuations of one `readFileIndex` call write only the slot `fileIndex`
  of the file list (`readFileIndex_untouched`) and read, of the other
  slots, only the extensions, which never change; so running the chains of
  different items one after the other reaches the same file list as any
  interleaving of them.  Progress reports are recorded item after item.
* A synchronous `throw` inside an action is `Except.error`.
* External collaborators (`ReaderFactory`, `FileReader`, `JSZip`, the
  download transport) are fields of an environment record `Env`: for every
  argument they say how the call ends.  An archive (`Zip`) is given by what
  `zip.folder(path).forEach` visits; the proxy manager and the root store
  that `load` talks to are a record `Scene`.
* `toLowerCase` is modelled on the ASCII letters.
* JavaScript numbers of the progress map are exact rationals extended by
  `Infinity`, `-Infinity` and `NaN` (`Num`); floating point rounding and the
  sign of zero are not modelled.
-/

namespace FileLoader

/-! ## Strings and extensions -/

/-- Scan for `lastIndexOf`: `i` is the index of the head, `acc` the last hit so far. -/
def lastIndexOfFrom (c : Char) : List Char → Nat → Int → Int
  | [], _, acc => acc
  | x :: xs, i, acc => lastIndexOfFrom c xs (i + 1) (if x = c then (i : Int) else acc)

/-- The method `String.prototype.lastIndexOf` for a one-character needle: `-1` when absent. -/
def lastIndexOf (s : List Char) (c : Char) : Int :=
  lastIndexOfFrom c s 0 (-1)

/-- The method `toLowerCase`, on the ASCII letters (other characters are kept). -/
def toLowerCase (s : List Char) : List Char :=
  s.map Char.toLower

/-- The function `getExtension(filename)`. -/
def getExtension (filename : String) : String :=
  let i := lastIndexOf filename.data '.'
  if i > -1 then String.mk (toLowerCase (filename.data.drop (i + 1).toNat)) else ""

/-! ## JavaScript numbers of the progress map -/

/-- A JavaScript number: a rational, `Infinity`, `-Infinity` or `NaN`. -/
inductive Num where
  | fin (q : ℚ)
  | inf
  | ninf
  | nan
  deriving DecidableEq

/-- The operator `+` on numbers. -/
def Num.add : Num → Num → Num
  | .nan, _ => .nan
  | _, .nan => .nan
  | .inf, .ninf => .nan
  | .ninf, .inf => .nan
  | .inf, _ => .inf
  | _, .inf => .inf
  | .ninf, _ => .ninf
  | _, .ninf => .ninf
  | .fin a, .fin b => .fin (a + b)

/-- The operator `/` with a non-negative integer divisor (an array length). -/
def Num.divNat : Num → Nat → Num
  | .nan, _ => .nan
  | .inf, _ => .inf
  | .ninf, _ => .ninf
  | .fin q, 0 => if q = 0 then .nan else if 0 < q then .inf else .ninf
  | .fin q, n + 1 => .fin (q / ((n + 1 : Nat) : ℚ))

/-- The operator `/` on two non-negative integers (`loaded / total`). -/
def jsDivNat (a b : Nat) : Num :=
  if b = 0 then (if a = 0 then .nan else .inf) else .fin ((a : ℚ) / (b : ℚ))

/-! ## Data model -/

/-- The possible values of `fileState.state`. -/
inductive Status where
  | needsDownload
  | needsInfo
  | loading
  | ready
  | error
  deriving DecidableEq, Repr

/-- A browser `File`: its name and its bytes. -/
structure File where
  name : String
  bytes : List Nat
  deriving DecidableEq

/-- Modelled from the spec: the `dataType` objects of the raw-file dialog are not part of
the store; the spec names them "the fixed-width numeric element kinds".  Each stands for
the typed-array constructor held in its `constructor` field. -/
inductive DataType where
  | int8
  | uint8
  | int16
  | uint16
  | int32
  | uint32
  | float32
  | float64
  deriving DecidableEq

/-- The constant `BYTES_PER_ELEMENT` of the typed array of a data type. -/
def DataType.bytesPerElement : DataType → Nat
  | .int8 => 1
  | .uint8 => 1
  | .int16 => 2
  | .uint16 => 2
  | .int32 => 4
  | .uint32 => 4
  | .float32 => 4
  | .float64 => 8

/-- The payload `{ dimensions, spacing, dataType }` of a raw file. -/
structure RawInfo where
  dimensions : Int × Int × Int
  spacing : List ℚ
  dataType : DataType
  deriving DecidableEq

/-- A `vtkDataArray`: one entry of `values` per element, each the bytes of that element. -/
structure DataArray where
  name : String
  values : List (List Nat)
  deriving DecidableEq

/-- A `vtkImageData` as far as the loader builds it. -/
structure Dataset where
  spacing : List ℚ
  extent : List Int
  scalars : Option DataArray
  deriving DecidableEq

/-- One record of a measurements file. -/
structure Measurement where
  componentName : String
  data : Nat
  deriving DecidableEq

/-- What `reader.getOutputData()` gives. -/
inductive ReaderOutput where
  | dataset (d : Dataset)
  | measurements (ms : List Measurement)
  deriving DecidableEq

/-- A vtk reader object: an identity, whether it has the method `getOutputData` and what
that method returns. -/
structure VtkReader where
  tag : Nat
  getOutputData : Option ReaderOutput
  deriving DecidableEq

/-- A reader bundle, as stored in `fileState.reader`. -/
structure ReaderBundle where
  name : String
  dataset : Option Dataset
  reader : Option VtkReader
  metadata : Option (List (String × String))
  deriving DecidableEq

/-- The field `proxyKeys.meta`. -/
structure Meta where
  glanceDataType : Option String
  deriving DecidableEq

/-- The field `proxyKeys` of a file description. -/
structure ProxyKeys where
  meta : Option Meta
  deriving DecidableEq

/-- The field `remoteOpts`: the request headers (the other options are passed through). -/
structure RemoteOpts where
  headers : Option (List (String × String))
  deriving DecidableEq

/-- What is stored in `fileState.error`: an `Error` object or a message string. -/
inductive ErrorValue where
  | errorObject (message : String)
  | text (s : String)
  deriving DecidableEq

/-- Truthiness of an error payload: an object is truthy, a string when not empty. -/
def ErrorValue.truthy : ErrorValue → Bool
  | .errorObject _ => true
  | .text s => decide (s ≠ "")

/-- One entry of `state.fileList`. -/
structure FileState where
  state : Status
  name : String
  ext : String
  files : Option (List File)
  reader : Option ReaderBundle
  extraInfo : Option RawInfo
  remoteURL : Option String
  withGirderToken : Bool
  proxyKeys : Option ProxyKeys
  remoteOpts : Option RemoteOpts
  error : Option ErrorValue
  deriving DecidableEq

/-- The module state.  The progress object is the list of its entries. -/
structure State where
  fileList : List FileState
  loading : Bool
  progress : List (String × Num)
  deriving DecidableEq

/-- A file description, the payload element of `addToFileList`, by its `type`:
`dicom` (with `list`), `remote` (with `remoteURL`, `remoteOpts`, `withGirderToken`) or
`regular` (with `file`). -/
inductive FileInfo where
  | dicom (name : String) (list : List File) (proxyKeys : Option ProxyKeys)
  | remote (name : String) (remoteURL : Option String) (remoteOpts : Option RemoteOpts)
      (withGirderToken : Bool) (proxyKeys : Option ProxyKeys)
  | regular (name : String) (file : File) (proxyKeys : Option ProxyKeys)
  deriving DecidableEq

/-- The field `name` of a file description. -/
def FileInfo.name : FileInfo → String
  | .dicom name _ _ => name
  | .remote name _ _ _ _ => name
  | .regular name _ _ => name

/-- The field `proxyKeys` of a file description. -/
def FileInfo.proxyKeys : FileInfo → Option ProxyKeys
  | .dicom _ _ proxyKeys => proxyKeys
  | .remote _ _ _ _ proxyKeys => proxyKeys
  | .regular _ _ proxyKeys => proxyKeys

/-! ## Array access -/

/-- The expression `arr[index]` for a numeric index: `undefined` outside the array. -/
def getItem {α : Type} (xs : List α) (index : Int) : Option α :=
  if 0 ≤ index then xs.get? index.toNat else none

/-- The guard `index >= 0 && index < state.fileList.length`. -/
def inRange (s : State) (index : Int) : Bool :=
  decide (0 ≤ index) && decide (index < (s.fileList.length : Int))

/-- Assignment to fields of `state.fileList[index]`. -/
def updateItem (s : State) (index : Int) (f : FileState → FileState) : State :=
  { s with fileList := s.fileList.modify f index.toNat }

/-! ## Getters -/

/-- The getter `anyErrors`. -/
def anyErrors (s : State) : Bool :=
  s.fileList.foldl (fun flag file => flag || decide (file.state = Status.error)) false

/-- The getter `totalProgress`. -/
def totalProgress (s : State) : Num :=
  let itemProgresses := s.progress.map Prod.snd
  if itemProgresses.length = 0 then Num.fin 0
  else Num.divNat (itemProgresses.foldl (fun sum val => Num.add sum val) (Num.fin 0))
    itemProgresses.length

/-! ## Mutations -/

/-- The mutation `startLoading`. -/
def startLoading (s : State) : State :=
  { s with loading := true }

/-- The mutation `stopLoading`. -/
def stopLoading (s : State) : State :=
  { s with loading := false }

/-- The mutation `resetQueue`. -/
def resetQueue (s : State) : State :=
  { s with fileList := [] }

/-- The object built for one file description in `addToFileList`. -/
def makeFileState (fileInfo : FileInfo) : FileState :=
  let fileState : FileState :=
    { state := Status.loading
      name := fileInfo.name
      ext := getExtension fileInfo.name
      files := none
      reader := none
      extraInfo := none
      remoteURL := none
      withGirderToken := false
      proxyKeys := fileInfo.proxyKeys
      remoteOpts := none
      error := none }
  match fileInfo with
  | .dicom _ list _ => { fileState with files := some list }
  | .remote _ remoteURL remoteOpts withGirderToken _ =>
    { fileState with
      state := Status.needsDownload
      remoteURL := remoteURL
      remoteOpts := some (remoteOpts.getD { headers := none })
      withGirderToken := withGirderToken }
  | .regular _ file _ => { fileState with files := some [file] }

/-- The mutation `addToFileList`: one push per description, in order. -/
def addToFileList (s : State) (files : List FileInfo) : State :=
  files.foldl (fun st fileInfo => { st with fileList := st.fileList ++ [makeFileState fileInfo] }) s

/-- The mutation `setFileNeedsInfo`. -/
def setFileNeedsInfo (s : State) (index : Int) : State :=
  if inRange s index then
    updateItem s index (fun f => { f with state := Status.needsInfo, extraInfo := none })
  else s

/-- The mutation `setRemoteFile`. -/
def setRemoteFile (s : State) (index : Int) (file : File) : State :=
  if inRange s index then
    updateItem s index (fun f => { f with state := Status.loading, files := some [file] })
  else s

/-- The mutation `setFileReader`; a falsy `reader` is `none`. -/
def setFileReader (s : State) (index : Int) (reader : Option ReaderBundle) : State :=
  match reader with
  | some r =>
    if inRange s index then
      updateItem s index (fun f => { f with reader := some r, state := Status.ready })
    else s
  | none => s

/-- The mutation `setRawFileInfo`; a falsy `info` is `none`. -/
def setRawFileInfo (s : State) (index : Int) (info : Option RawInfo) : State :=
  match info with
  | some i =>
    if inRange s index then
      updateItem s index (fun f => { f with extraInfo := some i, state := Status.loading })
    else s
  | none => s

/-- The mutation `setFileError`; `null`/`undefined` is `none`, and an empty string is falsy too. -/
def setFileError (s : State) (index : Int) (error : Option ErrorValue) : State :=
  match error with
  | some e =>
    if e.truthy && inRange s index then
      updateItem s index (fun f => { f with error := some e, state := Status.error })
    else s
  | none => s

/-- The mutation `deleteFile`. -/
def deleteFile (s : State) (index : Int) : State :=
  if inRange s index then { s with fileList := s.fileList.eraseIdx index.toNat } else s

/-- Setting the key `id` of an object given by its entries: an existing key keeps its
place, a new key is added at the end. -/
def objectSet {β : Type} (obj : List (String × β)) (id : String) (value : β) : List (String × β) :=
  match obj with
  | [] => [(id, value)]
  | (k, v) :: rest => if k = id then (k, value) :: rest else (k, v) :: objectSet rest id value

/-- The call `Vue.set(obj, id, value)` on the progress object. -/
def vueSet (obj : List (String × Num)) (id : String) (value : Num) : List (String × Num) :=
  objectSet obj id value

/-- The mutation `setProgress`. -/
def setProgress (s : State) (id : String) (percentage : Num) : State :=
  { s with progress := vueSet s.progress id percentage }

/-- The mutation `clearProgresses`. -/
def clearProgresses (s : State) : State :=
  { s with progress := [] }

/-! ## Promises and the environment -/

/-- A thrown value or rejection reason: a falsy value, or a truthy value with its
`message` property (absent on a value that is not an `Error`). -/
inductive Reason where
  | falsy
  | thrown (message : Option String)
  deriving DecidableEq

/-- The eventual outcome of a promise. -/
inductive Promise (α : Type) where
  | resolved (a : α)
  | rejected (r : Reason)
  | pending
  deriving DecidableEq

/-- A transport progress report. -/
structure ProgressEvent where
  lengthComputable : Bool
  loaded : Nat
  total : Nat
  deriving DecidableEq

/-- One run of `ReaderFactory.downloadDataset`: the progress reports it delivers to
`progressCallback`, in order, and the outcome of the promise it returns. -/
structure Download where
  reports : List ProgressEvent
  result : Promise File

/-- An entry of a JSZip archive: its full name, whether it is a directory, and the
outcome of `zip.file(name).async('blob')`. -/
structure ZipObject where
  name : String
  dir : Bool
  blob : Promise (List Nat)

/-- A JSZip archive, by what `zip.folder(path).forEach` visits: the pairs
(relative path, entry) in order, given the `folder` calls made on the archive before
(`folder` may add a folder entry to the archive). -/
structure Zip where
  forEach : List (Option String) → Option String → List (String × ZipObject)

/-- An element of the array that `zipGetSupportedFiles` returns: the promise of a `File`,
or, for a directory entry, the array returned by the nested call. -/
inductive ZipItem where
  | file (p : Promise File)
  | nested (items : List ZipItem)

/-- An element of the array that `Promise.all(zipGetSupportedFiles(zip))` resolves to: a
`File`, or an array (which `Promise.all` passes through as it is). -/
inductive Expanded where
  | file (f : File)
  | array
  deriving DecidableEq

/-- The collaborators of the loader.  `fileReaderError f` is `some r` when reading `f`
with a `FileReader` fires `onerror` with `r`, and `none` when it fires `onload` with the
bytes of `f`.  `loadAsync` is `JSZip.loadAsync` and `listSupportedExtensions` is
`ReaderFactory.listSupportedExtensions()`. -/
structure Env where
  girderToken : String
  fileReaderError : File → Option Reason
  downloadDataset : String → String → RemoteOpts → Download
  loadFileSeries : Option (List File) → String → String → Promise (Option ReaderBundle)
  loadFiles : Option (List File) → Promise (Option (List (Option ReaderBundle)))
  loadAsync : File → Promise Zip
  listSupportedExtensions : List String

/-- The method `then` with one callback.  The callback gets the state at the time it runs;
its `Promise` is what the returned promise settles to (a thrown value is a rejection). -/
def andThen {α β : Type} (p : State × Promise α) (cb : State → α → State × Promise β) :
    State × Promise β :=
  match p.2 with
  | .resolved a => cb p.1 a
  | .rejected r => (p.1, .rejected r)
  | .pending => (p.1, .pending)

/-- The method `catch`. -/
def catchWith {α : Type} (p : State × Promise α) (cb : State → Reason → State × Promise α) :
    State × Promise α :=
  match p.2 with
  | .resolved a => (p.1, .resolved a)
  | .rejected r => cb p.1 r
  | .pending => (p.1, .pending)

/-- The function `Promise.all`: rejected when an element is, else pending when an element
is, else resolved with the values. -/
def promiseAll {α : Type} : List (Promise α) → Promise (List α)
  | [] => .resolved []
  | p :: ps =>
    match p with
    | .rejected r => .rejected r
    | .pending =>
      match promiseAll ps with
      | .rejected r => .rejected r
      | _ => .pending
    | .resolved a =>
      match promiseAll ps with
      | .rejected r => .rejected r
      | .pending => .pending
      | .resolved l => .resolved (a :: l)

/-- Truthiness of an optional string (`null`, `undefined` and the empty string are falsy). -/
def truthyString : Option String → Bool
  | none => false
  | some s => decide (s ≠ "")

/-- The expression `message || fallback`. -/
def orElse (message : Option String) (fallback : String) : String :=
  if truthyString message then message.getD fallback else fallback

/-- The `TypeError` thrown on a property access on `null` or `undefined`. -/
def typeError : Reason :=
  .thrown (some "Cannot read properties of undefined")

/-! ## The raw volume reader -/

/-- The view `new TypedArray(buffer)` of a byte buffer: one group of `n` bytes per element. -/
def elements (n : Nat) (buffer : List Nat) : List (List Nat) :=
  (List.range (buffer.length / n)).map (fun i => (buffer.drop (i * n)).take n)

/-- The expression `new dataType.constructor(buffer)`: a `RangeError` (here `none`) when the
byte length is not a multiple of the element size. -/
def typedArray (dataType : DataType) (buffer : List Nat) : Option (List (List Nat)) :=
  if buffer.length % dataType.bytesPerElement = 0 then
    some (elements dataType.bytesPerElement buffer)
  else none

/-- The function `readRawFile(file, { dimensions, spacing, dataType })`.  With `file`
undefined `readAsArrayBuffer` throws inside the executor, which rejects the promise.  When
the typed-array constructor throws inside `onload`, the promise is never settled. -/
def readRawFile (env : Env) (file : Option File) (info : RawInfo) : Promise Dataset :=
  match file with
  | none => .rejected (.thrown (some "parameter 1 is not of type 'Blob'"))
  | some f =>
    match env.fileReaderError f with
    | some error => .rejected error
    | none =>
      match typedArray info.dataType f.bytes with
      | none => .pending
      | some values =>
        .resolved
          { spacing := info.spacing
            extent := [0, info.dimensions.1 - 1, 0, info.dimensions.2.1 - 1, 0,
              info.dimensions.2.2 - 1]
            scalars := some { name := "Scalars", values := values } }

/-! ## Actions -/

/-- The callback `progressCallback(progress)` of the item named `name`. -/
def progressCallback (s : State) (name : String) (progress : ProgressEvent) : State :=
  let percentage :=
    if progress.lengthComputable then jsDivNat progress.loaded progress.total else Num.inf
  setProgress s name percentage

/-- The final `ret.catch((error) => ...)` of `readFileIndex`. -/
def catchFileError (fileIndex : Int) (ret : State × Promise Unit) : State × Promise Unit :=
  catchWith ret (fun st error =>
    match error with
    | .falsy => (st, .resolved ())
    | .thrown message =>
      (setFileError st fileIndex (some (.text (orElse message "File load failure"))),
        .resolved ()))

/-- The callback `(r) => { if (r && r.length === 1) commit('setFileReader', ...) }` given to
`ReaderFactory.loadFiles(file.files).then` in `readFileIndex`. -/
def onFilesLoaded (fileIndex : Int) (st : State) (r : Option (List (Option ReaderBundle))) :
    State × Promise Unit :=
  match r with
  | some [reader] => (setFileReader st fileIndex reader, .resolved ())
  | _ => (st, .resolved ())

/-- The loop `for (let i = 0; i < fileIndex; i++)` of `readFileIndex`: is there an item
with extension `glance` before `fileIndex`? -/
def stateFileBefore (s : State) (fileIndex : Int) : Bool :=
  (s.fileList.take fileIndex.toNat).any (fun f => decide (f.ext = "glance"))

/-- The action `readFileIndex`.  The first argument bounds the depth of the nested
`dispatch('readFileIndex', fileIndex)`; two levels are always enough. -/
def readFileIndex (env : Env) : Nat → State → Int → State × Except Reason (Promise Unit)
  | 0, s, _ => (s, .ok .pending)
  | fuel + 1, s, fileIndex =>
    match getItem s.fileList fileIndex with
    | none => (s, .error typeError)
    | some file =>
      if file.state = Status.ready ∨ file.state = Status.error then (s, .ok (.resolved ()))
      else if file.state = Status.needsDownload ∧ truthyString file.remoteURL = true then
        let prepared : Option State :=
          if file.withGirderToken then
            match file.remoteOpts with
            | none => none
            | some opts =>
              let headers := objectSet (opts.headers.getD []) "Girder-Token" env.girderToken
              some (updateItem s fileIndex (fun f =>
                { f with remoteOpts := some { headers := some headers } }))
          else some s
        match prepared with
        | none => (s, .error typeError)
        | some s1 =>
          let opts : RemoteOpts :=
            ((getItem s1.fileList fileIndex).bind (fun f => f.remoteOpts)).getD { headers := none }
          let download := env.downloadDataset file.name (file.remoteURL.getD "") opts
          let s2 := download.reports.foldl (fun st progress => progressCallback st file.name progress) s1
          let ret := andThen (s2, download.result) (fun st datasetFile =>
            let st1 := setRemoteFile st fileIndex datasetFile
            match readFileIndex env fuel st1 fileIndex with
            | (st2, .ok p) => (st2, p)
            | (st2, .error r) => (st2, .rejected r))
          let ret := catchWith ret (fun st _ =>
            (st, .rejected (.thrown (some "Failed to download file"))))
          let ret := catchFileError fileIndex ret
          (ret.1, .ok ret.2)
      else if file.ext = "raw" then
        match file.extraInfo with
        | some info =>
          match file.files with
          | none => (s, .error typeError)
          | some files =>
            let started := readRawFile env files.head? info
            let s1 := setFileNeedsInfo s fileIndex
            let ret := andThen (s1, started) (fun st ds =>
              (setFileReader st fileIndex
                (some { name := file.name, dataset := some ds, reader := none, metadata := none }),
                .resolved ()))
            let ret := catchFileError fileIndex ret
            (ret.1, .ok ret.2)
        | none =>
          let ret := catchFileError fileIndex (setFileNeedsInfo s fileIndex, .resolved ())
          (ret.1, .ok ret.2)
      else if file.ext = "dcm" then
        let ret := andThen (s, env.loadFileSeries file.files "dcm" file.name) (fun st r =>
          match r with
          | some reader => (setFileReader st fileIndex (some reader), .resolved ())
          | none => (st, .resolved ()))
        let ret := catchFileError fileIndex ret
        (ret.1, .ok ret.2)
      else if file.ext = "glance" ∧ stateFileBefore s fileIndex = true then
        (setFileError s fileIndex (some (.errorObject "Cannot load multiple state files")),
          .ok (.resolved ()))
      else
        let ret := andThen (s, env.loadFiles file.files) (onFilesLoaded fileIndex)
        let ret := catchFileError fileIndex ret
        (ret.1, .ok ret.2)

/-- The loop of `readAllFiles` over the indices still to dispatch; a synchronous throw
ends the loop. -/
def readAllFilesLoop (env : Env) (fuel : Nat) :
    List Nat → State → List (Promise Unit) → State × Except Reason (List (Promise Unit))
  | [], s, readPromises => (s, .ok readPromises)
  | i :: rest, s, readPromises =>
    match readFileIndex env fuel s (i : Int) with
    | (s1, .ok p) => readAllFilesLoop env fuel rest s1 (readPromises ++ [p])
    | (s1, .error r) => (s1, .error r)

/-- The action `readAllFiles`. -/
def readAllFiles (env : Env) (fuel : Nat) (s : State) :
    State × Except Reason (Promise (List Unit)) :=
  match readAllFilesLoop env fuel (List.range s.fileList.length) s [] with
  | (s1, .ok readPromises) => (s1, .ok (promiseAll readPromises))
  | (s1, .error r) => (s1, .error r)

/-- A remote file description given to `openRemoteFiles`. -/
structure RemoteFile where
  name : String
  url : Option String
  options : Option RemoteOpts
  withGirderToken : Bool
  proxyKeys : Option ProxyKeys

/-- The action `openRemoteFiles`. -/
def openRemoteFiles (env : Env) (fuel : Nat) (s : State) (remoteFiles : List RemoteFile) :
    State × Except Reason (Promise (List Unit)) :=
  readAllFiles env fuel
    (addToFileList s (remoteFiles.map (fun rfile =>
      FileInfo.remote rfile.name rfile.url rfile.options rfile.withGirderToken rfile.proxyKeys)))

/-- The function `getSupportedExtensions()`. -/
def getSupportedExtensions (env : Env) : List String :=
  ["zip", "raw", "glance", "gz"] ++ env.listSupportedExtensions

/-- The last element of `name.split('/')`. -/
def baseName (name : String) : String :=
  let i := lastIndexOf name.data '/'
  String.mk (name.data.drop (i + 1).toNat)

/-- The `RangeError` of a call stack that is exhausted. -/
def rangeError : Reason :=
  .thrown (some "Maximum call stack size exceeded")

/-- The promise `zip.file(file.name).async('blob').then((blob) => new File([blob], baseName))`. -/
def filePromise (file : ZipObject) : Promise File :=
  match file.blob with
  | .resolved bytes => .resolved { name := baseName file.name, bytes := bytes }
  | .rejected r => .rejected r
  | .pending => .pending

/-- The callback of `forEach` in `zipGetSupportedFiles`, run over the entries that remain
to be visited.  `calls` are the `folder` calls made on the archive so far; the first
argument bounds the number of steps, and a walk that no bound lets finish is a call stack
that overflows. -/
def zipWalk (zip : Zip) (supportedExts : List String) :
    Nat → List (Option String) → List (String × ZipObject) →
      Except Reason (List (Option String) × List ZipItem)
  | _, calls, [] => .ok (calls, [])
  | 0, _, _ :: _ => .error rangeError
  | fuel + 1, calls, (relPath, file) :: rest =>
    if file.dir then
      match zipWalk zip supportedExts fuel (calls ++ [some relPath])
          (zip.forEach calls (some relPath)) with
      | .error e => .error e
      | .ok (calls1, items) =>
        match zipWalk zip supportedExts fuel calls1 rest with
        | .error e => .error e
        | .ok (calls2, promises) => .ok (calls2, ZipItem.nested items :: promises)
    else if getExtension file.name ∈ supportedExts then
      match zipWalk zip supportedExts fuel calls rest with
      | .error e => .error e
      | .ok (calls2, promises) => .ok (calls2, ZipItem.file (filePromise file) :: promises)
    else zipWalk zip supportedExts fuel calls rest

/-- The function `zipGetSupportedFiles(zip, path)`. -/
def zipGetSupportedFiles (env : Env) (zip : Zip) (fuel : Nat) (calls : List (Option String))
    (path : Option String) : Except Reason (List (Option String) × List ZipItem) :=
  zipWalk zip (getSupportedExtensions env) fuel (calls ++ [path]) (zip.forEach calls path)

/-- What `Promise.all` waits for in an element of the array. -/
def ZipItem.settle : ZipItem → Promise Expanded
  | .file (.resolved f) => .resolved (Expanded.file f)
  | .file (.rejected r) => .rejected r
  | .file .pending => .pending
  | .nested _ => .resolved Expanded.array

/-- The promise `JSZip.loadAsync(file).then((zip) => Promise.all(zipGetSupportedFiles(zip)))`
of `openFiles`. -/
def expandZip (env : Env) (fuel : Nat) (file : File) : Promise (List Expanded) :=
  match env.loadAsync file with
  | .resolved zip =>
    match zipGetSupportedFiles env zip fuel [] none with
    | .error e => .rejected e
    | .ok (_, promises) => promiseAll (promises.map ZipItem.settle)
  | .rejected r => .rejected r
  | .pending => .pending

/-- The files of an expanded list, when it holds files only. -/
def filesOnly : List Expanded → Option (List File)
  | [] => some []
  | .file f :: rest => (filesOnly rest).map (fun l => f :: l)
  | .array :: _ => none

/-- The two commits of `openFiles` for a batch without archives: the series item made of
the `dcm` files, if any, then one item per other file. -/
def commitBatch (s : State) (files : List File) : State :=
  let regularFileList := files.filter (fun f => !decide (getExtension f.name = "dcm"))
  let dicomFileList := files.filter (fun f => decide (getExtension f.name = "dcm"))
  let s1 :=
    match dicomFileList with
    | first :: _ => addToFileList s [FileInfo.dicom first.name dicomFileList none]
    | [] => s
  addToFileList s1 (regularFileList.map (fun f => FileInfo.regular f.name f none))

/-- The action `openFiles`.  The first argument bounds the number of archive expansion
rounds; `fuel` is the bound handed to `readAllFiles` and to `zipGetSupportedFiles`.  When
the expanded list holds an array (an archive with a directory entry), the nested dispatch
throws on `getExtension(f.name)` and the promise is rejected. -/
def openFiles (env : Env) (fuel : Nat) :
    Nat → State → List File → State × Except Reason (Promise (List Unit))
  | rounds, s, files =>
    let zips := files.filter (fun f => decide (getExtension f.name = "zip"))
    if zips.length ≠ 0 then
      match rounds with
      | 0 => (s, .ok .pending)
      | rounds + 1 =>
        let nonzips := files.filter (fun f => !decide (getExtension f.name = "zip"))
        match promiseAll (zips.map (expandZip env fuel)) with
        | .resolved results =>
          match filesOnly results.flatten with
          | some expanded =>
            match openFiles env fuel rounds s (nonzips ++ expanded) with
            | (s1, .ok p) => (s1, .ok p)
            | (s1, .error r) => (s1, .ok (.rejected r))
          | none => (s, .ok (.rejected typeError))
        | .rejected r => (s, .ok (.rejected r))
        | .pending => (s, .ok .pending)
    else readAllFiles env fuel (commitBatch s files)

/-! ## The action `load` -/

/-- A proxy of the proxy manager, by `getProxyId()` and `getProxyName()`. -/
structure Proxy where
  proxyId : String
  proxyName : String
  deriving DecidableEq

/-- The element of the array given to `ReaderFactory.registerReadersToProxyManager`. -/
structure Registration where
  bundle : ReaderBundle
  proxyKeys : Option ProxyKeys
  deriving DecidableEq

/-- The calls that `load` makes on its collaborators, in the order of the calls. -/
inductive SceneEvent where
  | restoreAppState (reader : VtkReader)
  | register (registration : Registration)
  | addLabelmapToImage (imageId labelmapId : String)
  | setLabelmapState (labelmapId : String) (selectedLabel lastColorIndex : Nat)
  | addMeasurementTool (datasetId componentName : String) (data : Nat)
  deriving DecidableEq

/-- The collaborators of `load` over a proxy manager with states in `PM`: the state file
reader, the root action `restoreAppState`, `postProcessDataset`,
`ReaderFactory.registerReadersToProxyManager`, `proxyManager.getSources()` and the outcome
of the action `widgets/addLabelmapToImage`. -/
structure Scene (PM : Type) where
  parseAsArrayBuffer : VtkReader → Promise Unit
  restoreAppState : PM → VtkReader → PM × Promise Unit
  postProcessDataset : Option ReaderOutput → Meta → Option Dataset
  registerReadersToProxyManager : PM → Registration → PM × List (Option Proxy)
  getSources : PM → List Proxy
  addLabelmapToImage : String → String → Promise Unit

/-- The progress of a `load` pass: the proxy manager, the calls made so far, and the
outcome of the step. -/
structure Pass (PM : Type) (α : Type) where
  pm : PM
  events : List SceneEvent
  outcome : Except Reason α

/-- The object `readerBundle` that the inner `loadFiles` builds for the file `f` with
reader bundle `r`.  (The `Object.assign` on an existing `metadata` object also changes it
inside the store; `load` does not read it again and the store copy is not tracked.) -/
def readerBundleOf {PM : Type} (scene : Scene PM) (f : FileState) (r : ReaderBundle) :
    ReaderBundle :=
  let metadata := r.metadata.getD []
  let metadata :=
    if truthyString f.remoteURL then objectSet metadata "url" (f.remoteURL.getD "") else metadata
  let readerBundle : ReaderBundle := { r with metadata := some metadata }
  match f.proxyKeys.bind (fun k => k.meta) with
  | some meta =>
    let ds : Option ReaderOutput :=
      match readerBundle.reader.bind (fun reader => reader.getOutputData) with
      | some out => some out
      | none => readerBundle.dataset.map ReaderOutput.dataset
    { readerBundle with dataset := scene.postProcessDataset ds meta, reader := none }
  | none => readerBundle

/-- The inner function `loadFiles(fileList)` of `load`: `ret` is the array built so far. -/
def loadFiles {PM : Type} (scene : Scene PM) :
    List FileState → PM → List SceneEvent → List Proxy → Pass PM (List Proxy)
  | [], pm, events, ret => { pm := pm, events := events, outcome := .ok ret }
  | f :: rest, pm, events, ret =>
    match f.reader with
    | none => { pm := pm, events := events, outcome := .error typeError }
    | some r =>
      let registration : Registration :=
        { bundle := readerBundleOf scene f r, proxyKeys := f.proxyKeys }
      let registered := scene.registerReadersToProxyManager pm registration
      loadFiles scene rest registered.1 (events ++ [SceneEvent.register registration])
        (ret ++ registered.2.filterMap id)

/-- Is the file a labelmap: `meta.glanceDataType === 'vtkLabelMap'`. -/
def isLabelmap (file : FileState) : Bool :=
  decide (((file.proxyKeys.bind (fun k => k.meta)).bind (fun m => m.glanceDataType))
    = some "vtkLabelMap")

/-- Is the file a measurements file: `file.name.endsWith('.measurements.json')`. -/
def isMeasurement (file : FileState) : Bool :=
  ".measurements.json".data.isSuffixOf file.name.data

/-- The array `regularFiles` of `load`. -/
def regularFilesOf (otherFiles : List FileState) : List FileState :=
  otherFiles.filter (fun file => !isLabelmap file && !isMeasurement file)

/-- The array `labelmapFiles` of `load`. -/
def labelmapFilesOf (otherFiles : List FileState) : List FileState :=
  otherFiles.filter (fun file => isLabelmap file)

/-- The array `measurementFiles` of `load`. -/
def measurementFilesOf (otherFiles : List FileState) : List FileState :=
  otherFiles.filter (fun file => !isLabelmap file && isMeasurement file)

/-- The loop over `measurementFiles` of `load`: the `widgets/addMeasurementTool` calls. -/
def measurementEvents (lastSourcePID : String) :
    List FileState → List SceneEvent → List SceneEvent × Except Reason Unit
  | [], events => (events, .ok ())
  | f :: rest, events =>
    match (f.reader.bind (fun r => r.reader)) with
    | none => (events, .error typeError)
    | some reader =>
      match reader.getOutputData with
      | none => (events, .error (.thrown (some "getOutputData is not a function")))
      | some (.dataset _) => measurementEvents lastSourcePID rest events
      | some (.measurements ms) =>
        measurementEvents lastSourcePID rest
          (events ++ ms.map (fun m =>
            SceneEvent.addMeasurementTool lastSourcePID m.componentName m.data))

/-- The second `then` callback of `load`: registration of the ready files other than the
state file, then the attachment of labelmaps and measurements to the last source.  The
`widgets/setLabelmapState` calls are made once the callback has returned, for every
labelmap whose `widgets/addLabelmapToImage` resolved. -/
def registerReadyFiles {PM : Type} (scene : Scene PM) (readyFiles : List FileState) (pm : PM)
    (events : List SceneEvent) : Pass PM Unit :=
  let otherFiles := readyFiles.filter (fun f => !decide (f.ext = "glance"))
  let regular := loadFiles scene (regularFilesOf otherFiles) pm events []
  match regular.outcome with
  | .error e => { pm := regular.pm, events := regular.events, outcome := .error e }
  | .ok _ =>
    let labelmaps := loadFiles scene (labelmapFilesOf otherFiles) regular.pm regular.events []
    match labelmaps.outcome with
    | .error e => { pm := labelmaps.pm, events := labelmaps.events, outcome := .error e }
    | .ok loadedLabelmaps =>
      let sources := (scene.getSources labelmaps.pm).filter
        (fun p => decide (p.proxyName = "TrivialProducer"))
      match sources.getLast? with
      | none => { pm := labelmaps.pm, events := labelmaps.events, outcome := .ok () }
      | some lastSource =>
        let lastSourcePID := lastSource.proxyId
        let attached := labelmaps.events ++ loadedLabelmaps.map (fun lmProxy =>
          SceneEvent.addLabelmapToImage lastSourcePID lmProxy.proxyId)
        let measured := measurementEvents lastSourcePID (measurementFilesOf otherFiles) attached
        let later := (loadedLabelmaps.filter (fun lmProxy =>
            decide (scene.addLabelmapToImage lastSourcePID lmProxy.proxyId = .resolved ()))).map
          (fun lmProxy => SceneEvent.setLabelmapState lmProxy.proxyId 1 1)
        { pm := labelmaps.pm, events := measured.1 ++ later, outcome := measured.2 }

/-- What `load` gives: the store, the proxy manager, the calls made, and the returned
promise (or the value thrown by the action itself). -/
structure LoadResult (PM : Type) where
  state : State
  pm : PM
  events : List SceneEvent
  promise : Except Reason (Promise Unit)

/-- The action `load`. -/
def load {PM : Type} (scene : Scene PM) (s : State) (pm : PM) : LoadResult PM :=
  let s1 := clearProgresses (startLoading s)
  let readyFiles := s1.fileList.filter (fun f => decide (f.state = Status.ready))
  let stateFile := readyFiles.find? (fun f => decide (f.ext = "glance"))
  let restored : Except Reason (PM × List SceneEvent × Promise Unit) :=
    match stateFile with
    | none => .ok (pm, [], .resolved ())
    | some file =>
      match file.reader with
      | none => .error typeError
      | some bundle =>
        match bundle.reader with
        | none => .ok (pm, [], .rejected typeError)
        | some reader =>
          match scene.parseAsArrayBuffer reader with
          | .resolved _ =>
            let r := scene.restoreAppState pm reader
            .ok (r.1, [SceneEvent.restoreAppState reader], r.2)
          | .rejected e => .ok (pm, [], .rejected e)
          | .pending => .ok (pm, [], .pending)
  match restored with
  | .error e => { state := s1, pm := pm, events := [], promise := .error e }
  | .ok (pm1, events1, .resolved _) =>
    let pass := registerReadyFiles scene readyFiles pm1 events1
    match pass.outcome with
    | .ok _ =>
      { state := stopLoading s1, pm := pass.pm, events := pass.events,
        promise := .ok (.resolved ()) }
    | .error e =>
      { state := stopLoading s1, pm := pass.pm, events := pass.events,
        promise := .ok (.rejected e) }
  | .ok (pm1, events1, .rejected e) =>
    { state := stopLoading s1, pm := pm1, events := events1, promise := .ok (.rejected e) }
  | .ok (pm1, events1, .pending) =>
    { state := s1, pm := pm1, events := events1, promise := .ok .pending }

/-! ## Sample inputs -/

/-- An environment in which file reads succeed, downloads and series reads never settle,
and the format reader finds no dataset. -/
def Env.idle : Env :=
  { girderToken := "token"
    fileReaderError := fun _ => none
    downloadDataset := fun _ _ _ => { reports := [], result := .pending }
    loadFileSeries := fun _ _ _ => .pending
    loadFiles := fun _ => .resolved (some [])
    loadAsync := fun _ => .resolved { forEach := fun _ _ => [] }
    listSupportedExtensions := ["vti", "vtp", "nrrd", "json"] }

/-- A local file of the given name and bytes, as `addToFileList` stores it. -/
def localItem (name : String) (bytes : List Nat) : FileState :=
  makeFileState (FileInfo.regular name { name := name, bytes := bytes } none)

/-- A remote file of the given name and URL, as `addToFileList` stores it. -/
def remoteItem (name url : String) : FileState :=
  makeFileState (FileInfo.remote name (some url) none false none)

/-- A store holding the given items, nothing else. -/
def storeOf (items : List FileState) : State :=
  { fileList := items, loading := false, progress := [] }

/-- A reader bundle that holds only a name. -/
def bundleOf (name : String) : ReaderBundle :=
  { name := name, dataset := none, reader := none, metadata := none }

/-- An environment in which every download fails with a network error and the format
reader finds exactly one dataset. -/
def Env.offline : Env :=
  { Env.idle with
    downloadDataset := fun _ _ _ =>
      { reports := [], result := .rejected (.thrown (some "Network Error")) }
    loadFiles := fun _ => .resolved (some [some (bundleOf "data")]) }

/-- The errors of the items of a store, in order. -/
def errorsOf (s : State) : List (Option ErrorValue) :=
  s.fileList.map (fun f => f.error)

/-- A proxy manager given by the list of its sources: every registration adds one
`TrivialProducer` source named after the bundle; restoring a state file and attaching a
labelmap succeed. -/
def Scene.simple : Scene (List Proxy) :=
  { parseAsArrayBuffer := fun _ => .resolved ()
    restoreAppState := fun pm _ => (pm, .resolved ())
    postProcessDataset := fun ds _ =>
      match ds with
      | some (.dataset d) => some d
      | _ => none
    registerReadersToProxyManager := fun pm registration =>
      (pm ++ [{ proxyId := registration.bundle.name, proxyName := "TrivialProducer" }],
        [some { proxyId := registration.bundle.name, proxyName := "TrivialProducer" }])
    getSources := fun pm => pm
    addLabelmapToImage := fun _ _ => .resolved () }

/-- A local item in state `ready` with the given reader bundle. -/
def readyItem (name : String) (bundle : ReaderBundle) : FileState :=
  { localItem name [] with state := Status.ready, reader := some bundle }

/-- The reader bundle of a state file: a reader object without dataset. -/
def stateBundle (name : String) : ReaderBundle :=
  { name := name, dataset := none, reader := some { tag := 0, getOutputData := none },
    metadata := none }

/-- The states of the items of a store, in order. -/
def statesOf (s : State) : List Status :=
  s.fileList.map (fun f => f.state)

/-- The state in which the download of item `fileIndex` starts: `readFileIndex` has set the
`Girder-Token` header on the item when the item asks for it. -/
def downloadState (env : Env) (s : State) (fileIndex : Int) (file : FileState)
    (opts : RemoteOpts) : State :=
  if file.withGirderToken then
    let headers := objectSet (opts.headers.getD []) "Girder-Token" env.girderToken
    updateItem s fileIndex (fun f => { f with remoteOpts := some { headers := some headers } })
  else s

/-- The download that `readFileIndex` starts for the item `file` at `fileIndex`. -/
def downloadRun (env : Env) (s : State) (fileIndex : Int) (file : FileState)
    (opts : RemoteOpts) : Download :=
  env.downloadDataset file.name (file.remoteURL.getD "")
    (((getItem (downloadState env s fileIndex file opts).fileList fileIndex).bind
      (fun f => f.remoteOpts)).getD { headers := none })

/-- The state once the progress reports of that download have been recorded. -/
def downloadReported (env : Env) (s : State) (fileIndex : Int) (file : FileState)
    (opts : RemoteOpts) : State :=
  (downloadRun env s fileIndex file opts).reports.foldl
    (fun st progress => progressCallback st file.name progress)
    (downloadState env s fileIndex file opts)

/-- The continuation of a successful download in `readFileIndex`. -/
def afterDownload (env : Env) (fuel : Nat) (fileIndex : Int) (st : State) (datasetFile : File) :
    State × Promise Unit :=
  match readFileIndex env fuel (setRemoteFile st fileIndex datasetFile) fileIndex with
  | (st2, .ok p) => (st2, p)
  | (st2, .error r) => (st2, .rejected r)

/-! ## Specification-side definitions -/

/-- What the loader keeps of an item while it reads it: the name, the extension and,
unless the item is pending download, the files; an item never returns to
`needsDownload`. -/
def Kept (f g : FileState) : Prop :=
  g.name = f.name ∧ g.ext = f.ext ∧
    (f.state ≠ Status.needsDownload → g.files = f.files ∧ g.state ≠ Status.needsDownload)

/-- Two stores whose file lists have the same length and, position by position, items
related by `Kept`. -/
def Frame (s t : State) : Prop :=
  List.Forall₂ Kept s.fileList t.fileList

/-- Two stores whose file lists agree at every position other than `k`. -/
def Untouched (k : Int) (s t : State) : Prop :=
  ∀ j : Int, j ≠ k → getItem t.fileList j = getItem s.fileList j

/-- The series item that `addToFileList` builds from a `dicom` description. -/
def seriesItem (name : String) (list : List File) : FileState :=
  { state := Status.loading, name := name, ext := getExtension name, files := some list,
    reader := none, extraInfo := none, remoteURL := none, withGirderToken := false,
    proxyKeys := none, remoteOpts := none, error := none }

/-- The item that `addToFileList` builds from the `regular` description of a file. -/
def regularItem (f : File) : FileState :=
  { state := Status.loading, name := f.name, ext := getExtension f.name, files := some [f],
    reader := none, extraInfo := none, remoteURL := none, withGirderToken := false,
    proxyKeys := none, remoteOpts := none, error := none }



/-- Following the spec's words: the entries with the series extension form one item named
after the first of them, and every other entry is an item of its own, in encounter order. -/
def classifyBatch (files : List File) : List FileState :=
  let series := files.filter (fun f => decide (getExtension f.name = "dcm"))
  let others := files.filter (fun f => !decide (getExtension f.name = "dcm"))
  (match series.head? with
    | some first => [seriesItem first.name series]
    | none => []) ++ others.map regularItem

/-- The `register` call that the inner `loadFiles` of `load` makes for a file. -/
def registrationOf {PM : Type} (scene : Scene PM) (f : FileState) : Option SceneEvent :=
  f.reader.map (fun r =>
    SceneEvent.register { bundle := readerBundleOf scene f r, proxyKeys := f.proxyKeys })

/-- The array `readyFiles` of `load`. -/
def readyFilesOf (s : State) : List FileState :=
  s.fileList.filter (fun f => decide (f.state = Status.ready))

/-- The array `otherFiles` of `load`. -/
def otherFilesOf (s : State) : List FileState :=
  (readyFilesOf s).filter (fun f => !decide (f.ext = "glance"))

/-- The property read `obj[id]` on an object given by its entries. -/
def objectGet {β : Type} (obj : List (String × β)) (id : String) : Option β :=
  match obj with
  | [] => none
  | (k, v) :: rest => if k = id then some v else objectGet rest id

/-- The values of the progress object, `Object.values(state.progress)`. -/
def progressValues (s : State) : List Num :=
  s.progress.map Prod.snd

/-- Following the spec's words: the sum of all present fractions. -/
def sumOfEntries : List Num → Num
  | [] => Num.fin 0
  | v :: vs => Num.add v (sumOfEntries vs)

/-- Following the spec's words: "the mean of all present fractions, or 0 if none". -/
def meanOfEntries (vals : List Num) : Num :=
  match vals with
  | [] => Num.fin 0
  | _ :: _ => Num.divNat (sumOfEntries vals) vals.length

/-- The progress object after a sequence of progress reports, each for the item named. -/
def recordReports (s : State) (reports : List (String × ProgressEvent)) : State :=
  reports.foldl (fun st r => progressCallback st r.1 r.2) s

/-! ## Definitions for the claims on extensions and archives -/

/-- The store `t` differs from `s` at most in the item at `index`: every other item, the
length of the list, the progress object and the loading flag are those of `s`, and with
`index` out of range `t` is `s`. -/
def OnlyAt (index : Int) (s t : State) : Prop :=
  (∀ j : Int, j ≠ index → getItem t.fileList j = getItem s.fileList j) ∧
  t.fileList.length = s.fileList.length ∧
  t.progress = s.progress ∧ t.loading = s.loading ∧
  (inRange s index = false → t = s)

/-- A reader bundle holding an (empty) image dataset. -/
def imageBundle (name : String) : ReaderBundle :=
  { name := name, dataset := some { spacing := [], extent := [], scalars := none },
    reader := none, metadata := none }

/-- A ready item tagged as a labelmap: `proxyKeys.meta.glanceDataType` is `vtkLabelMap`. -/
def labelmapItem (name : String) (bundle : ReaderBundle) : FileState :=
  { readyItem name bundle with
    proxyKeys := some { meta := some { glanceDataType := some "vtkLabelMap" } } }

/-- The `widgets/addLabelmapToImage` calls among the calls of a pass, as pairs
(imageId, labelmapId). -/
def attachments (events : List SceneEvent) : List (String × String) :=
  events.filterMap (fun e =>
    match e with
    | .addLabelmapToImage imageId labelmapId => some (imageId, labelmapId)
    | _ => none)

/-- The promises of files at the top level of the array of `zipGetSupportedFiles`. -/
def topFiles : List ZipItem → List (Promise File)
  | [] => []
  | .file p :: rest => p :: topFiles rest
  | .nested _ :: rest => topFiles rest

/-- Following the spec's words: "every contained leaf entry whose extension is supported". -/
def supportedLeaves (exts : List String) (visited : List (String × ZipObject)) :
    List ZipObject :=
  (visited.filter (fun e => !e.2.dir && decide (getExtension e.2.name ∈ exts))).map
    (fun e => e.2)

/-- An archive entry that is a file with the given name and bytes. -/
def zipFile (name : String) (bytes : List Nat) : String × ZipObject :=
  (name, { name := name, dir := false, blob := .resolved bytes })

/-- An archive holding the files `inner.zip` and `notes.txt`. -/
def outerArchive : Zip :=
  { forEach := fun _ path =>
      match path with
      | none => [zipFile "inner.zip" [80, 75], zipFile "notes.txt" [104, 105]]
      | some _ => [] }

/-- An archive holding the single file `data.vti`. -/
def innerArchive : Zip :=
  { forEach := fun _ path =>
      match path with
      | none => [zipFile "data.vti" [1, 2, 3]]
      | some _ => [] }

/-- An environment in which the file `outer.zip` is the archive `outerArchive` and every
other archive is `innerArchive`. -/
def Env.nestedArchive : Env :=
  { Env.idle with
    loadAsync := fun f =>
      if f.name = "outer.zip" then .resolved outerArchive else .resolved innerArchive }

/-- The names of the items of a store, in order. -/
def namesOf (s : State) : List String :=
  s.fileList.map (fun f => f.name)

/-! # Theorems -/

/-! ## The progress aggregate -/

theorem numAdd_comm (a b : Num) : Num.add a b = Num.add b a := by
  cases a <;> cases b <;> simp [Num.add, add_comm]

theorem numAdd_assoc (a b c : Num) : Num.add (Num.add a b) c = Num.add a (Num.add b c) := by
  cases a <;> cases b <;> cases c <;> simp [Num.add, add_assoc]

theorem numZero_add (a : Num) : Num.add (Num.fin 0) a = a := by
  cases a <;> simp [Num.add]

theorem foldl_add_eq_sum (vals : List Num) (acc : Num) :
    vals.foldl (fun sum val => Num.add sum val) acc = Num.add acc (sumOfEntries vals) := by
  induction vals generalizing acc with
  | nil => cases acc <;> simp [sumOfEntries, Num.add]
  | cons v vs ih => simp [List.foldl_cons, ih, sumOfEntries, numAdd_assoc]

theorem totalProgress_eq_mean (s : State) : totalProgress s = meanOfEntries (progressValues s) := by
  unfold totalProgress meanOfEntries progressValues
  cases h : s.progress.map Prod.snd with
  | nil => simp
  | cons v vs => simp [foldl_add_eq_sum, numZero_add, sumOfEntries]

theorem objectGet_objectSet {β : Type} (obj : List (String × β)) (id k : String) (v : β) :
    objectGet (objectSet obj id v) k = if k = id then some v else objectGet obj k := by
  induction obj with
  | nil =>
    by_cases h : k = id
    · simp [objectSet, objectGet, h]
    · have h2 : ¬ id = k := fun e => h e.symm
      simp [objectSet, objectGet, h, h2]
  | cons e rest ih =>
    obtain ⟨a, b⟩ := e
    by_cases h1 : a = id
    · by_cases h2 : k = id
      · simp [objectSet, objectGet, h1, h2]
      · have h3 : ¬ id = k := fun e => h2 e.symm
        simp [objectSet, objectGet, h1, h2, h3]
    · by_cases h2 : a = k
      · have h3 : ¬ k = id := fun e => h1 (h2.trans e)
        simp [objectSet, objectGet, h1, h2, h3]
      · simp [objectSet, objectGet, h1, h2, ih]

theorem mem_objectSet {β : Type} (obj : List (String × β)) (id : String) (v : β)
    (e : String × β) (he : e ∈ objectSet obj id v) : e = (id, v) ∨ e ∈ obj := by
  induction obj with
  | nil => simp [objectSet] at he; exact Or.inl he
  | cons x rest ih =>
    obtain ⟨a, b⟩ := x
    by_cases h1 : a = id
    · simp only [objectSet, h1, if_true, List.mem_cons] at he
      rcases he with he | he
      · exact Or.inl he
      · exact Or.inr (List.mem_cons_of_mem _ he)
    · simp only [objectSet, h1, if_false, List.mem_cons] at he
      rcases he with he | he
      · exact Or.inr (by simp [he])
      · rcases ih he with h | h
        · exact Or.inl h
        · exact Or.inr (List.mem_cons_of_mem _ h)

theorem self_mem_objectSet {β : Type} (obj : List (String × β)) (id : String) (v : β) :
    (id, v) ∈ objectSet obj id v := by
  induction obj with
  | nil => simp [objectSet]
  | cons x rest ih =>
    obtain ⟨a, b⟩ := x
    by_cases h1 : a = id
    · simp [objectSet, h1]
    · simp only [objectSet, h1, if_false, List.mem_cons]
      exact Or.inr ih

theorem objectSet_ne_nil {β : Type} (obj : List (String × β)) (id : String) (v : β) :
    objectSet obj id v ≠ [] := by
  intro h
  have := self_mem_objectSet obj id v
  rw [h] at this
  exact List.not_mem_nil _ this

theorem sumOfEntries_inf (vals : List Num) (hmem : Num.inf ∈ vals)
    (hok : ∀ v ∈ vals, v ≠ Num.nan ∧ v ≠ Num.ninf) : sumOfEntries vals = Num.inf := by
  induction vals with
  | nil => exact absurd hmem (List.not_mem_nil _)
  | cons v vs ih =>
    have hv := hok v (List.mem_cons_self _ _)
    have hvs : ∀ w ∈ vs, w ≠ Num.nan ∧ w ≠ Num.ninf := fun w hw => hok w (List.mem_cons_of_mem _ hw)
    have hrest : ∀ ws : List Num, (∀ w ∈ ws, w ≠ Num.nan ∧ w ≠ Num.ninf) →
        sumOfEntries ws ≠ Num.nan ∧ sumOfEntries ws ≠ Num.ninf := by
      intro ws
      induction ws with
      | nil => intro _; simp [sumOfEntries]
      | cons w ws ihw =>
        intro h
        have h1 := h w (List.mem_cons_self _ _)
        have h2 := ihw (fun x hx => h x (List.mem_cons_of_mem _ hx))
        rcases h1 with ⟨h1a, h1b⟩
        rcases h2 with ⟨h2a, h2b⟩
        simp only [sumOfEntries]
        cases w <;> cases hsum : sumOfEntries ws <;> simp_all [Num.add]
    rcases List.mem_cons.mp hmem with h | h
    · have h2 := hrest vs hvs
      rcases h2 with ⟨h2a, h2b⟩
      simp only [sumOfEntries, ← h]
      cases hsum : sumOfEntries vs <;> simp_all [Num.add]
    · have h2 := ih h hvs
      rcases hv with ⟨hva, hvb⟩
      simp only [sumOfEntries, h2]
      cases v <;> simp_all [Num.add]

theorem sumOfEntries_unit (vals : List Num)
    (h : ∀ v ∈ vals, ∃ q : ℚ, v = Num.fin q ∧ 0 ≤ q ∧ q ≤ 1) :
    ∃ t : ℚ, sumOfEntries vals = Num.fin t ∧ 0 ≤ t ∧ t ≤ (vals.length : ℚ) := by
  induction vals with
  | nil => exact ⟨0, by simp [sumOfEntries]⟩
  | cons v vs ih =>
    obtain ⟨q, hq, hq0, hq1⟩ := h v (List.mem_cons_self _ _)
    obtain ⟨t, ht, ht0, ht1⟩ := ih (fun w hw => h w (List.mem_cons_of_mem _ hw))
    refine ⟨q + t, ?_, by linarith, ?_⟩
    · simp [sumOfEntries, hq, ht, Num.add]
    · simp only [List.length_cons, Nat.cast_add, Nat.cast_one]
      linarith

theorem meanOfEntries_unit (vals : List Num)
    (h : ∀ v ∈ vals, ∃ q : ℚ, v = Num.fin q ∧ 0 ≤ q ∧ q ≤ 1) :
    ∃ m : ℚ, meanOfEntries vals = Num.fin m ∧ 0 ≤ m ∧ m ≤ 1 := by
  obtain ⟨t, ht, ht0, ht1⟩ := sumOfEntries_unit vals h
  cases vals with
  | nil => exact ⟨0, by simp [meanOfEntries]⟩
  | cons v vs =>
    refine ⟨t / ((vs.length + 1 : Nat) : ℚ), ?_, ?_, ?_⟩
    · simp [meanOfEntries, ht, Num.divNat]
    · exact div_nonneg ht0 (Nat.cast_nonneg _)
    · have hpos : (0 : ℚ) < ((vs.length + 1 : Nat) : ℚ) := by exact_mod_cast Nat.succ_pos _
      rw [div_le_one hpos]
      simpa using ht1

theorem recordReports_entries (Q : String × Num → Prop) (reports : List (String × ProgressEvent))
    (s : State) (hs : ∀ e ∈ s.progress, Q e)
    (hr : ∀ r ∈ reports,
      Q (r.1, if r.2.lengthComputable then jsDivNat r.2.loaded r.2.total else Num.inf)) :
    ∀ e ∈ (recordReports s reports).progress, Q e := by
  induction reports generalizing s with
  | nil => simpa [recordReports] using hs
  | cons r rest ih =>
    have hstep : ∀ e ∈ (progressCallback s r.1 r.2).progress, Q e := by
      intro e he
      simp only [progressCallback, setProgress, vueSet] at he
      rcases mem_objectSet _ _ _ _ he with h | h
      · rw [h]; exact hr r (List.mem_cons_self _ _)
      · exact hs e h
    have := ih (progressCallback s r.1 r.2) hstep (fun x hx => hr x (List.mem_cons_of_mem _ hx))
    simpa [recordReports] using this

/-- C8, as stated, fails: after one report with `lengthComputable = false` the entry of the
item is `Infinity` (neither left out nor clamped to 1) and `totalProgress` is `Infinity`,
although the other entry is within [0,1]. -/
theorem totalProgress_infinity_counterexample :
    objectGet
      (progressCallback { fileList := [], loading := true, progress := [("a.vti", Num.fin 1)] }
        "b.vti" { lengthComputable := false, loaded := 10, total := 0 }).progress "b.vti"
      = some Num.inf ∧
    totalProgress
      (progressCallback { fileList := [], loading := true, progress := [("a.vti", Num.fin 1)] }
        "b.vti" { lengthComputable := false, loaded := 10, total := 0 }) = Num.inf := by
  constructor
  · simp [progressCallback, setProgress, vueSet, objectSet, objectGet]
  · simp [progressCallback, setProgress, vueSet, objectSet, totalProgress, Num.add, Num.divNat]

/-- C8 amended: a report with `lengthComputable = false` records `Infinity` for the item,
and `totalProgress` is then `Infinity` whenever no entry of the mapping is `NaN` or
`-Infinity`. -/
theorem totalProgress_not_computable (s : State) (name : String) (progress : ProgressEvent)
    (hc : progress.lengthComputable = false)
    (hs : ∀ v ∈ progressValues s, v ≠ Num.nan ∧ v ≠ Num.ninf) :
    objectGet (progressCallback s name progress).progress name = some Num.inf ∧
    totalProgress (progressCallback s name progress) = Num.inf := by
  have hp : (progressCallback s name progress).progress = objectSet s.progress name Num.inf := by
    simp [progressCallback, setProgress, vueSet, hc]
  constructor
  · rw [hp, objectGet_objectSet]; simp
  · rw [totalProgress_eq_mean]
    have hmem : Num.inf ∈ progressValues (progressCallback s name progress) := by
      simp only [progressValues, hp]
      exact List.mem_map.mpr ⟨(name, Num.inf), self_mem_objectSet _ _ _, rfl⟩
    have hok : ∀ v ∈ progressValues (progressCallback s name progress),
        v ≠ Num.nan ∧ v ≠ Num.ninf := by
      intro v hv
      simp only [progressValues, hp] at hv
      obtain ⟨e, he, hev⟩ := List.mem_map.mp hv
      rcases mem_objectSet _ _ _ _ he with h | h
      · rw [← hev, h]; simp
      · exact hs v (List.mem_map.mpr ⟨e, h, hev⟩)
    have hsum := sumOfEntries_inf _ hmem hok
    cases hv : progressValues (progressCallback s name progress) with
    | nil => rw [hv] at hmem; exact absurd hmem (List.not_mem_nil _)
    | cons v vs => rw [hv] at hsum; simp [meanOfEntries, hsum, Num.divNat]

theorem totalProgress_not_computable_witness :
    objectGet
      (progressCallback { fileList := [], loading := true, progress := [("a.vti", Num.inf)] }
        "b.vti" { lengthComputable := false, loaded := 3, total := 0 }).progress "b.vti"
      = some Num.inf ∧
    totalProgress
      (progressCallback { fileList := [], loading := true, progress := [("a.vti", Num.inf)] }
        "b.vti" { lengthComputable := false, loaded := 3, total := 0 }) = Num.inf :=
  totalProgress_not_computable _ "b.vti" _ rfl (by simp [progressValues])

/-- C9: when the progress object starts empty and every report delivered to
`progressCallback` has `lengthComputable = true`, `total > 0` and `loaded <= total`, every
entry is `loaded / total` of one of the reports of its item and lies in [0,1], and
`totalProgress` lies in [0,1]. -/
theorem totalProgress_unit_interval (s : State) (reports : List (String × ProgressEvent))
    (hs : s.progress = [])
    (hr : ∀ r ∈ reports, r.2.lengthComputable = true ∧ 0 < r.2.total ∧ r.2.loaded ≤ r.2.total) :
    (∀ e ∈ (recordReports s reports).progress, ∃ r ∈ reports, r.1 = e.1 ∧
      e.2 = Num.fin ((r.2.loaded : ℚ) / (r.2.total : ℚ)) ∧
      0 ≤ (r.2.loaded : ℚ) / (r.2.total : ℚ) ∧ (r.2.loaded : ℚ) / (r.2.total : ℚ) ≤ 1) ∧
    ∃ m : ℚ, totalProgress (recordReports s reports) = Num.fin m ∧ 0 ≤ m ∧ m ≤ 1 := by
  have hent := recordReports_entries
    (fun e => ∃ r ∈ reports, r.1 = e.1 ∧
      e.2 = Num.fin ((r.2.loaded : ℚ) / (r.2.total : ℚ)) ∧
      0 ≤ (r.2.loaded : ℚ) / (r.2.total : ℚ) ∧ (r.2.loaded : ℚ) / (r.2.total : ℚ) ≤ 1)
    reports s (by simp [hs])
    (by
      intro r hrm
      obtain ⟨h1, h2, h3⟩ := hr r hrm
      refine ⟨r, hrm, rfl, ?_, ?_, ?_⟩
      · have : r.2.total ≠ 0 := Nat.pos_iff_ne_zero.mp h2
        simp [h1, jsDivNat, this]
      · exact div_nonneg (Nat.cast_nonneg _) (Nat.cast_nonneg _)
      · have hpos : (0 : ℚ) < (r.2.total : ℚ) := by exact_mod_cast h2
        rw [div_le_one hpos]
        exact_mod_cast h3)
  refine ⟨hent, ?_⟩
  rw [totalProgress_eq_mean]
  apply meanOfEntries_unit
  intro v hv
  obtain ⟨e, he, hev⟩ := List.mem_map.mp hv
  obtain ⟨r, _, _, h2, h3, h4⟩ := hent e he
  exact ⟨_, by rw [← hev, h2], h3, h4⟩

theorem totalProgress_unit_interval_witness :
    (∀ e ∈ (recordReports { fileList := [], loading := true, progress := [] }
        [("a.vti", { lengthComputable := true, loaded := 1, total := 4 }),
         ("b.vti", { lengthComputable := true, loaded := 2, total := 2 })]).progress,
      ∃ r ∈ [("a.vti", ({ lengthComputable := true, loaded := 1, total := 4 } : ProgressEvent)),
         ("b.vti", { lengthComputable := true, loaded := 2, total := 2 })], r.1 = e.1 ∧
      e.2 = Num.fin ((r.2.loaded : ℚ) / (r.2.total : ℚ)) ∧
      0 ≤ (r.2.loaded : ℚ) / (r.2.total : ℚ) ∧ (r.2.loaded : ℚ) / (r.2.total : ℚ) ≤ 1) ∧
    ∃ m : ℚ, totalProgress (recordReports { fileList := [], loading := true, progress := [] }
        [("a.vti", { lengthComputable := true, loaded := 1, total := 4 }),
         ("b.vti", { lengthComputable := true, loaded := 2, total := 2 })]) = Num.fin m ∧
      0 ≤ m ∧ m ≤ 1 :=
  totalProgress_unit_interval _ _ rfl (by
    intro r hrm
    simp only [List.mem_cons, List.mem_singleton, List.not_mem_nil, or_false] at hrm
    rcases hrm with h | h <;> subst h <;> simp)


/-! ## Array access and mutations -/

theorem getItem_nonneg {α : Type} {xs : List α} {i : Int} {x : α} (h : getItem xs i = some x) :
    0 ≤ i := by
  unfold getItem at h
  by_contra hneg
  simp [hneg] at h

theorem getItem_lt {α : Type} {xs : List α} {i : Int} {x : α} (h : getItem xs i = some x) :
    i.toNat < xs.length := by
  have h0 := getItem_nonneg h
  unfold getItem at h
  simp only [h0, if_true] at h
  exact (List.get?_eq_some.mp h).1

theorem inRange_of_getItem {s : State} {i : Int} {file : FileState}
    (h : getItem s.fileList i = some file) : inRange s i = true := by
  have h0 := getItem_nonneg h
  have h1 := getItem_lt h
  unfold inRange
  simp only [Bool.and_eq_true, decide_eq_true_eq]
  exact ⟨h0, by omega⟩

theorem getItem_updateItem_same {s : State} {i : Int} {file : FileState}
    (h : getItem s.fileList i = some file) (g : FileState → FileState) :
    getItem (updateItem s i g).fileList i = some (g file) := by
  have h0 := getItem_nonneg h
  unfold getItem at h ⊢
  simp only [h0, if_true, List.get?_eq_getElem?] at h ⊢
  simp [updateItem, List.getElem?_modify_eq, h]

theorem getItem_updateItem_of_ne (s : State) {i j : Int} (hi : 0 ≤ i) (hne : j ≠ i)
    (g : FileState → FileState) :
    getItem (updateItem s i g).fileList j = getItem s.fileList j := by
  unfold getItem
  by_cases hj : 0 ≤ j
  · simp only [hj, if_true, List.get?_eq_getElem?, updateItem]
    have : i.toNat ≠ j.toNat := by omega
    exact List.getElem?_modify_ne g _ this
  · simp [hj]

/-! ## The generic Format Reader branch -/

/-- C1, as stated, fails: an item in state `loading` on the generic branch for which
`ReaderFactory.loadFiles` resolves with zero results, or with two, is still in state
`loading` after `readFileIndex` (a rejection is what puts it in `error`). -/
theorem readFileIndex_not_one_result_counterexample :
    statesOf (readFileIndex Env.idle 1 (storeOf [localItem "a.vti" []]) 0).1
      = [Status.loading] ∧
    statesOf (readFileIndex
      { Env.idle with
        loadFiles := fun _ => .resolved (some [some (bundleOf "a"), some (bundleOf "b")]) }
      1 (storeOf [localItem "a.vti" []]) 0).1 = [Status.loading] := by
  decide

/-- C1 amended: for an item in state `loading` on the generic Format Reader branch, when
`ReaderFactory.loadFiles` resolves with zero results or with more than one, `readFileIndex`
changes nothing (the item stays in `loading`, without reader and without error) and its
promise resolves; when `loadFiles` rejects with a truthy reason the item ends in `error`. -/
theorem readFileIndex_generic_not_one_result (env : Env) (fuel : Nat) (s : State)
    (fileIndex : Int) (file : FileState)
    (hfile : getItem s.fileList fileIndex = some file)
    (hstate : file.state = Status.loading)
    (hraw : file.ext ≠ "raw") (hdcm : file.ext ≠ "dcm")
    (hdup : ¬ (file.ext = "glance" ∧ stateFileBefore s fileIndex = true)) :
    (∀ r : List (Option ReaderBundle), env.loadFiles file.files = .resolved (some r) →
      r.length ≠ 1 → readFileIndex env (fuel + 1) s fileIndex = (s, .ok (.resolved ()))) ∧
    (∀ message : Option String, env.loadFiles file.files = .rejected (.thrown message) →
      readFileIndex env (fuel + 1) s fileIndex =
        (updateItem s fileIndex (fun f =>
          { f with error := some (.text (orElse message "File load failure")),
                   state := Status.error }), .ok (.resolved ()))) := by
  constructor
  · intro r hr hlen
    simp only [readFileIndex, hfile, hstate, hraw, hdcm, hdup]
    simp only [andThen, hr, catchFileError, catchWith, onFilesLoaded]
    cases r with
    | nil => simp
    | cons a rest =>
      cases rest with
      | nil => simp at hlen
      | cons b rest2 => simp
  · intro message hr
    have hin := inRange_of_getItem hfile
    have htruthy : (ErrorValue.text (orElse message "File load failure")).truthy = true := by
      unfold orElse ErrorValue.truthy
      cases message with
      | none => simp [truthyString]
      | some m =>
        by_cases hm : m = ""
        · simp [truthyString, hm]
        · simp [truthyString, hm]
    simp only [readFileIndex, hfile, hstate, hraw, hdcm, hdup]
    simp [andThen, hr, catchFileError, catchWith, setFileError, hin, htruthy]


theorem readFileIndex_generic_not_one_result_witness :
    readFileIndex Env.idle 1 (storeOf [localItem "a.vti" []]) 0
      = (storeOf [localItem "a.vti" []], .ok (.resolved ())) :=
  (readFileIndex_generic_not_one_result Env.idle 0 (storeOf [localItem "a.vti" []]) 0
    (localItem "a.vti" []) (by decide) (by decide) (by decide) (by decide) (by decide)).1
    [] rfl (by decide)

/-! ## The raw volume branch -/

theorem makeFileState_needsDownload (fileInfo : FileInfo)
    (h : (makeFileState fileInfo).state = Status.needsDownload) :
    (makeFileState fileInfo).remoteOpts ≠ none := by
  cases fileInfo <;> simp_all [makeFileState]

theorem fileList_foldl_progressCallback (name : String) (reports : List ProgressEvent)
    (s : State) :
    (reports.foldl (fun st progress => progressCallback st name progress) s).fileList
      = s.fileList := by
  induction reports generalizing s with
  | nil => rfl
  | cons r rest ih => simp only [List.foldl_cons, ih]; rfl

theorem readFileIndex_download_eq (env : Env) (fuel : Nat) (s : State) (fileIndex : Int)
    (file : FileState) (o : RemoteOpts)
    (hfile : getItem s.fileList fileIndex = some file)
    (hstate : file.state = Status.needsDownload)
    (hurl : truthyString file.remoteURL = true)
    (hopts : file.withGirderToken = true → file.remoteOpts = some o) :
    readFileIndex env (fuel + 1) s fileIndex =
      ((catchFileError fileIndex (catchWith
        (andThen (downloadReported env s fileIndex file o,
            (downloadRun env s fileIndex file o).result)
          (afterDownload env fuel fileIndex))
        (fun st _ => (st, .rejected (.thrown (some "Failed to download file")))))).1,
       .ok (catchFileError fileIndex (catchWith
        (andThen (downloadReported env s fileIndex file o,
            (downloadRun env s fileIndex file o).result)
          (afterDownload env fuel fileIndex))
        (fun st _ => (st, .rejected (.thrown (some "Failed to download file")))))).2) := by
  cases hw : file.withGirderToken with
  | false =>
    simp only [readFileIndex, hfile, hstate, hurl, hw]
    simp only [downloadReported, downloadRun, downloadState, hw, afterDownload]
    rfl
  | true =>
    simp only [readFileIndex, hfile, hstate, hurl, hopts hw, hw]
    simp only [downloadReported, downloadRun, downloadState, hw, afterDownload]
    rfl

theorem fileList_downloadReported (env : Env) (s : State) (fileIndex : Int) (file : FileState)
    (o : RemoteOpts) :
    (downloadReported env s fileIndex file o).fileList
      = (downloadState env s fileIndex file o).fileList := by
  unfold downloadReported
  exact fileList_foldl_progressCallback _ _ _

theorem getItem_downloadState_same (env : Env) {s : State} {fileIndex : Int} {file : FileState}
    (o : RemoteOpts) (hfile : getItem s.fileList fileIndex = some file) :
    ∃ item, getItem (downloadState env s fileIndex file o).fileList fileIndex = some item ∧
      item.state = file.state ∧ item.ext = file.ext ∧ item.name = file.name ∧
      item.files = file.files ∧ item.error = file.error ∧ item.reader = file.reader := by
  unfold downloadState
  cases file.withGirderToken with
  | false => exact ⟨file, by simpa using hfile, rfl, rfl, rfl, rfl, rfl, rfl⟩
  | true =>
    simp only [if_true]
    exact ⟨_, getItem_updateItem_same hfile _, rfl, rfl, rfl, rfl, rfl, rfl⟩

theorem getItem_downloadState_of_ne (env : Env) (s : State) {fileIndex j : Int}
    (file : FileState) (o : RemoteOpts) (h0 : 0 ≤ fileIndex) (hne : j ≠ fileIndex) :
    getItem (downloadState env s fileIndex file o).fileList j = getItem s.fileList j := by
  unfold downloadState
  cases file.withGirderToken with
  | false => simp
  | true =>
    simp only [if_true]
    exact getItem_updateItem_of_ne s h0 hne _

theorem take_downloadState (env : Env) (s : State) (fileIndex : Int) (file : FileState)
    (o : RemoteOpts) :
    (downloadState env s fileIndex file o).fileList.take fileIndex.toNat
      = s.fileList.take fileIndex.toNat := by
  unfold downloadState
  cases file.withGirderToken with
  | false => simp
  | true =>
    simp only [if_true, updateItem, List.take_modify]
    exact List.modify_eq_self (by simp)

theorem catchFileError_not_rejected (fileIndex : Int) (ret : State × Promise Unit) (r : Reason) :
    (catchFileError fileIndex ret).2 ≠ .rejected r := by
  obtain ⟨st, p⟩ := ret
  cases p with
  | resolved a => simp [catchFileError, catchWith]
  | pending => simp [catchFileError, catchWith]
  | rejected e => cases e <;> simp [catchFileError, catchWith]

theorem readFileIndex_not_rejected (env : Env) (fuel : Nat) (s : State) (fileIndex : Int)
    (r : Reason) : (readFileIndex env fuel s fileIndex).2 ≠ .ok (.rejected r) := by
  cases fuel with
  | zero => simp [readFileIndex]
  | succ n =>
    unfold readFileIndex
    repeat' split
    all_goals first
      | (simp only [ne_eq, Except.ok.injEq]; exact catchFileError_not_rejected _ _ _)
      | simp

theorem promiseAll_not_rejected {α : Type} (ps : List (Promise α))
    (h : ∀ p ∈ ps, ∀ r, p ≠ .rejected r) (r : Reason) : promiseAll ps ≠ .rejected r := by
  induction ps generalizing r with
  | nil => simp [promiseAll]
  | cons p rest ih =>
    have hp := h p (List.mem_cons_self _ _)
    have hrest := ih (fun q hq => h q (List.mem_cons_of_mem _ hq))
    cases p with
    | rejected e => exact absurd rfl (hp e)
    | resolved a =>
      cases hq : promiseAll rest with
      | rejected e => exact absurd hq (hrest e)
      | resolved l => simp [promiseAll, hq]
      | pending => simp [promiseAll, hq]
    | pending =>
      cases hq : promiseAll rest with
      | rejected e => exact absurd hq (hrest e)
      | resolved l => simp [promiseAll, hq]
      | pending => simp [promiseAll, hq]

theorem readAllFilesLoop_not_rejected (env : Env) (fuel : Nat) (indices : List Nat) (s : State)
    (acc : List (Promise Unit)) (hacc : ∀ p ∈ acc, ∀ r, p ≠ .rejected r)
    (ps : List (Promise Unit)) (s1 : State)
    (h : readAllFilesLoop env fuel indices s acc = (s1, .ok ps)) :
    ∀ p ∈ ps, ∀ r, p ≠ .rejected r := by
  induction indices generalizing s acc with
  | nil =>
    simp only [readAllFilesLoop, Prod.mk.injEq, Except.ok.injEq] at h
    rw [← h.2]; exact hacc
  | cons i rest ih =>
    simp only [readAllFilesLoop] at h
    cases hrun : readFileIndex env fuel s (i : Int) with
    | mk st res =>
      cases res with
      | error e => simp [hrun] at h
      | ok p =>
        rw [hrun] at h
        simp only at h
        refine ih st (acc ++ [p]) ?_ h
        intro q hq r
        rcases List.mem_append.mp hq with hq | hq
        · exact hacc q hq r
        · have hqp : q = p := by simpa using hq
          have := readFileIndex_not_rejected env fuel s (i : Int) r
          rw [hrun] at this
          rw [hqp]
          intro hh
          exact this (by rw [hh])

theorem readAllFiles_not_rejected (env : Env) (fuel : Nat) (s : State) (r : Reason) :
    (readAllFiles env fuel s).2 ≠ .ok (.rejected r) := by
  unfold readAllFiles
  cases hrun : readAllFilesLoop env fuel (List.range s.fileList.length) s [] with
  | mk st res =>
    cases res with
    | error e => simp
    | ok ps =>
      simp only [ne_eq, Except.ok.injEq]
      exact promiseAll_not_rejected ps
        (readAllFilesLoop_not_rejected env fuel _ s [] (by simp) ps st hrun) r


theorem getItem_setFileError_same {s : State} {i : Int} {file : FileState} (e : ErrorValue)
    (he : e.truthy = true) (h : getItem s.fileList i = some file) :
    getItem (setFileError s i (some e)).fileList i =
      some { file with error := some e, state := Status.error } := by
  simp only [setFileError, he, inRange_of_getItem h, Bool.and_self, if_true]
  exact getItem_updateItem_same h _

theorem getItem_setFileError_of_ne (s : State) {i j : Int} (e : Option ErrorValue)
    (hne : j ≠ i) : getItem (setFileError s i e).fileList j = getItem s.fileList j := by
  cases e with
  | none => rfl
  | some v =>
    simp only [setFileError]
    split
    · rename_i h
      simp only [Bool.and_eq_true, inRange, decide_eq_true_eq] at h
      exact getItem_updateItem_of_ne s h.2.1 hne _
    · rfl

theorem readFileIndex_download_failed_eq (env : Env) (fuel : Nat) (s : State) (fileIndex : Int)
    (file : FileState) (o : RemoteOpts)
    (hfile : getItem s.fileList fileIndex = some file)
    (hstate : file.state = Status.needsDownload)
    (hurl : truthyString file.remoteURL = true)
    (hopts : file.withGirderToken = true → file.remoteOpts = some o)
    (hfail : ∃ r, (downloadRun env s fileIndex file o).result = .rejected r) :
    readFileIndex env (fuel + 1) s fileIndex =
      (setFileError (downloadReported env s fileIndex file o) fileIndex
        (some (.text "Failed to download file")), .ok (.resolved ())) := by
  obtain ⟨r, hr⟩ := hfail
  rw [readFileIndex_download_eq env fuel s fileIndex file o hfile hstate hurl hopts]
  have h1 : orElse (some "Failed to download file") "File load failure"
      = "Failed to download file" := by decide
  simp only [andThen, hr, catchWith, catchFileError, h1]

/-- C5: for an item in state `needsDownload` with a remote URL (whose `remoteOpts` is set
when it asks for the Girder token, as on every item that `addToFileList` puts in that
state), when the download fails `readFileIndex` ends with the item in state `error`
carrying the message 'Failed to download file', its promise resolves, every other item of
the file list is unchanged, and the promise of `readAllFiles` is never rejected. -/
theorem readFileIndex_download_failure (env : Env) (fuel : Nat) (s : State) (fileIndex : Int)
    (file : FileState) (o : RemoteOpts)
    (hfile : getItem s.fileList fileIndex = some file)
    (hstate : file.state = Status.needsDownload)
    (hurl : truthyString file.remoteURL = true)
    (hopts : file.withGirderToken = true → file.remoteOpts = some o)
    (hfail : ∃ r, (downloadRun env s fileIndex file o).result = .rejected r) :
    (readFileIndex env (fuel + 1) s fileIndex).2 = .ok (.resolved ()) ∧
    (∃ item, getItem (readFileIndex env (fuel + 1) s fileIndex).1.fileList fileIndex = some item ∧
      item.state = Status.error ∧ item.error = some (.text "Failed to download file")) ∧
    (∀ j : Int, j ≠ fileIndex →
      getItem (readFileIndex env (fuel + 1) s fileIndex).1.fileList j = getItem s.fileList j) ∧
    (readFileIndex env (fuel + 1) s fileIndex).1.fileList.length = s.fileList.length ∧
    (∀ (n : Nat) (st : State) (r : Reason), (readAllFiles env n st).2 ≠ .ok (.rejected r)) := by
  rw [readFileIndex_download_failed_eq env fuel s fileIndex file o hfile hstate hurl hopts hfail]
  obtain ⟨item, hitem, -, -, -, -, -, -⟩ := getItem_downloadState_same env o hfile
  rw [← fileList_downloadReported] at hitem
  refine ⟨rfl, ⟨_, getItem_setFileError_same _ (by decide) hitem, rfl, rfl⟩, ?_, ?_, ?_⟩
  · intro j hj
    rw [getItem_setFileError_of_ne _ _ hj, fileList_downloadReported]
    exact getItem_downloadState_of_ne env s file o (getItem_nonneg hfile) hj
  · simp only [setFileError]
    have hlen : (downloadReported env s fileIndex file o).fileList.length = s.fileList.length := by
      rw [fileList_downloadReported]
      unfold downloadState
      cases file.withGirderToken <;> simp [updateItem]
    split
    · simp [updateItem, hlen]
    · exact hlen
  · intro n st r
    exact readAllFiles_not_rejected env n st r


theorem readFileIndex_download_failure_witness :
    (readFileIndex Env.offline 1
      (storeOf [localItem "a.vti" [], remoteItem "b.vti" "https://host/b.vti"]) 1).2
      = .ok (.resolved ()) ∧
    ∃ item, getItem (readFileIndex Env.offline 1
        (storeOf [localItem "a.vti" [], remoteItem "b.vti" "https://host/b.vti"])
        1).1.fileList 1 = some item ∧
      item.state = Status.error ∧ item.error = some (.text "Failed to download file") :=
  ⟨(readFileIndex_download_failure Env.offline 0
      (storeOf [localItem "a.vti" [], remoteItem "b.vti" "https://host/b.vti"]) 1
      (remoteItem "b.vti" "https://host/b.vti") { headers := none }
      (by decide) (by decide) (by decide) (fun _ => rfl) ⟨_, rfl⟩).1,
   (readFileIndex_download_failure Env.offline 0
      (storeOf [localItem "a.vti" [], remoteItem "b.vti" "https://host/b.vti"]) 1
      (remoteItem "b.vti" "https://host/b.vti") { headers := none }
      (by decide) (by decide) (by decide) (fun _ => rfl) ⟨_, rfl⟩).2.1⟩

/-! ## The duplicate state file check -/

theorem stateFileBefore_iff (s : State) (k : Int) :
    stateFileBefore s k = true ↔
      ∃ (m : Nat) (f : FileState), (m : Int) < k ∧ getItem s.fileList (m : Int) = some f ∧
        f.ext = "glance" := by
  unfold stateFileBefore
  simp only [List.any_eq_true, decide_eq_true_eq, List.mem_iff_getElem?, List.getElem?_take]
  constructor
  · rintro ⟨f, ⟨m, hm⟩, hext⟩
    by_cases hlt : m < k.toNat
    · simp only [hlt, if_true] at hm
      exact ⟨m, f, by omega, by simp [getItem, hm], hext⟩
    · simp [hlt] at hm
  · rintro ⟨m, f, hlt, hget, hext⟩
    have hlt2 : m < k.toNat := by omega
    refine ⟨f, ⟨m, ?_⟩, hext⟩
    simpa [getItem, hlt2] using hget

theorem stateFileBefore_congr {s t : State} (k : Int)
    (h : t.fileList.take k.toNat = s.fileList.take k.toNat) :
    stateFileBefore t k = stateFileBefore s k := by
  unfold stateFileBefore
  rw [h]

theorem take_updateItem (s : State) (k : Int) (g : FileState → FileState) :
    (updateItem s k g).fileList.take k.toNat = s.fileList.take k.toNat := by
  simp only [updateItem, List.take_modify]
  exact List.modify_eq_self (by simp)

theorem getItem_setRemoteFile {s : State} {i : Int} {file : FileState} (d : File)
    (h : getItem s.fileList i = some file) :
    getItem (setRemoteFile s i d).fileList i =
      some { file with state := Status.loading, files := some [d] } := by
  simp only [setRemoteFile, inRange_of_getItem h, if_true]
  exact getItem_updateItem_same h _

theorem take_setRemoteFile (s : State) (k : Int) (d : File) :
    (setRemoteFile s k d).fileList.take k.toNat = s.fileList.take k.toNat := by
  unfold setRemoteFile
  split
  · exact take_updateItem s k _
  · rfl

theorem readFileIndex_duplicate (env : Env) (fuel : Nat) (s : State) (j : Int) (fj : FileState)
    (hj : getItem s.fileList j = some fj)
    (hready : fj.state ≠ Status.ready) (herror : fj.state ≠ Status.error)
    (hdown : ¬ (fj.state = Status.needsDownload ∧ truthyString fj.remoteURL = true))
    (hext : fj.ext = "glance") (hbefore : stateFileBefore s j = true) :
    readFileIndex env (fuel + 1) s j =
      (setFileError s j (some (.errorObject "Cannot load multiple state files")),
        .ok (.resolved ())) := by
  simp only [readFileIndex, hj, hready, herror, hdown, hext, hbefore]
  simp

theorem readFileIndex_duplicate_after_download (env : Env) (fuel : Nat) (s : State) (j : Int)
    (fj : FileState) (o : RemoteOpts) (d : File)
    (hj : getItem s.fileList j = some fj)
    (hstate : fj.state = Status.needsDownload)
    (hurl : truthyString fj.remoteURL = true)
    (hopts : fj.withGirderToken = true → fj.remoteOpts = some o)
    (hres : (downloadRun env s j fj o).result = .resolved d)
    (hext : fj.ext = "glance") (hbefore : stateFileBefore s j = true) :
    readFileIndex env (fuel + 2) s j =
      (setFileError (setRemoteFile (downloadReported env s j fj o) j d) j
        (some (.errorObject "Cannot load multiple state files")), .ok (.resolved ())) := by
  obtain ⟨item, hitem, -, hiext, -, -, -, -⟩ := getItem_downloadState_same env o hj
  rw [← fileList_downloadReported] at hitem
  have hitem2 := getItem_setRemoteFile d hitem
  have htake : (setRemoteFile (downloadReported env s j fj o) j d).fileList.take j.toNat
      = s.fileList.take j.toNat := by
    rw [take_setRemoteFile, fileList_downloadReported, take_downloadState]
  have hb2 := (stateFileBefore_congr j htake).trans hbefore
  have hdup := readFileIndex_duplicate env fuel _ j _ hitem2 (by simp) (by simp) (by simp)
    (by simpa using hiext.trans hext) hb2
  rw [readFileIndex_download_eq env (fuel + 1) s j fj o hj hstate hurl hopts]
  simp only [andThen, hres, afterDownload, hdup, catchWith, catchFileError]


theorem duplicate_rejected (env : Env) (fuel : Nat) (s : State) (j : Int) (fj : FileState)
    (hj : getItem s.fileList j = some fj) (hje : fj.ext = "glance")
    (hbefore : stateFileBefore s j = true)
    (hready : fj.state ≠ Status.ready) (herror : fj.state ≠ Status.error)
    (hdl : fj.state = Status.needsDownload ∧ truthyString fj.remoteURL = true →
      ∃ o d, (fj.withGirderToken = true → fj.remoteOpts = some o) ∧
        (downloadRun env s j fj o).result = .resolved d) :
    (readFileIndex env (fuel + 2) s j).2 = .ok (.resolved ()) ∧
    ∃ item, getItem (readFileIndex env (fuel + 2) s j).1.fileList j = some item ∧
      item.state = Status.error ∧
      item.error = some (.errorObject "Cannot load multiple state files") := by
  by_cases hdown : fj.state = Status.needsDownload ∧ truthyString fj.remoteURL = true
  · obtain ⟨o, d, hopts, hres⟩ := hdl hdown
    rw [readFileIndex_duplicate_after_download env fuel s j fj o d hj hdown.1 hdown.2 hopts hres
      hje hbefore]
    obtain ⟨item, hitem, -, -, -, -, -, -⟩ := getItem_downloadState_same env o hj
    rw [← fileList_downloadReported] at hitem
    exact ⟨rfl, _, getItem_setFileError_same _ rfl (getItem_setRemoteFile d hitem), rfl, rfl⟩
  · rw [readFileIndex_duplicate env (fuel + 1) s j fj hj hready herror hdown hje hbefore]
    exact ⟨rfl, _, getItem_setFileError_same _ rfl hj, rfl, rfl⟩

/-! ## What reading keeps of the file list -/

theorem kept_refl (f : FileState) : Kept f f :=
  ⟨rfl, rfl, fun h => ⟨rfl, h⟩⟩

theorem kept_trans {f g h : FileState} (h1 : Kept f g) (h2 : Kept g h) : Kept f h := by
  obtain ⟨a1, b1, c1⟩ := h1
  obtain ⟨a2, b2, c2⟩ := h2
  refine ⟨a2.trans a1, b2.trans b1, fun hs => ?_⟩
  obtain ⟨d1, e1⟩ := c1 hs
  obtain ⟨d2, e2⟩ := c2 e1
  exact ⟨d2.trans d1, e2⟩

theorem forall2_kept_refl (l : List FileState) : List.Forall₂ Kept l l := by
  induction l with
  | nil => exact List.Forall₂.nil
  | cons a l ih => exact List.Forall₂.cons (kept_refl a) ih

theorem forall2_kept_trans {l1 l2 l3 : List FileState} (h1 : List.Forall₂ Kept l1 l2)
    (h2 : List.Forall₂ Kept l2 l3) : List.Forall₂ Kept l1 l3 := by
  induction h1 generalizing l3 with
  | nil => cases h2; exact List.Forall₂.nil
  | cons hab _ ih =>
    cases h2 with
    | cons hbc hrest => exact List.Forall₂.cons (kept_trans hab hbc) (ih hrest)

theorem forall2_kept_modify (l : List FileState) (n : Nat) (g : FileState → FileState)
    (hg : ∀ f, l[n]? = some f → Kept f (g f)) : List.Forall₂ Kept l (l.modify g n) := by
  induction l generalizing n with
  | nil => simp
  | cons a l ih =>
    cases n with
    | zero =>
      simp only [List.modify_zero_cons]
      exact List.Forall₂.cons (hg a (by simp)) (forall2_kept_refl l)
    | succ n =>
      simp only [List.modify_succ_cons]
      exact List.Forall₂.cons (kept_refl a) (ih n (fun f hf => hg f (by simpa using hf)))

theorem frame_refl (s : State) : Frame s s :=
  forall2_kept_refl _

theorem frame_trans {s t u : State} (h1 : Frame s t) (h2 : Frame t u) : Frame s u :=
  forall2_kept_trans h1 h2

theorem frame_of_fileList_eq {s t : State} (h : t.fileList = s.fileList) : Frame s t := by
  unfold Frame
  rw [h]
  exact forall2_kept_refl _

theorem frame_updateItem (s : State) (i : Int) (g : FileState → FileState)
    (hg : ∀ f, getItem s.fileList i = some f → Kept f (g f)) (h0 : 0 ≤ i) :
    Frame s (updateItem s i g) := by
  unfold Frame updateItem
  apply forall2_kept_modify
  intro f hf
  exact hg f (by simp [getItem, h0, hf])

theorem frame_setFileNeedsInfo (s : State) (i : Int) : Frame s (setFileNeedsInfo s i) := by
  unfold setFileNeedsInfo
  split
  · rename_i h
    simp only [inRange, Bool.and_eq_true, decide_eq_true_eq] at h
    exact frame_updateItem s i _ (fun f _ => ⟨rfl, rfl, fun _ => ⟨rfl, by simp⟩⟩) h.1
  · exact frame_refl s

theorem frame_setFileReader (s : State) (i : Int) (r : Option ReaderBundle) :
    Frame s (setFileReader s i r) := by
  unfold setFileReader
  split
  · split
    · rename_i h
      simp only [inRange, Bool.and_eq_true, decide_eq_true_eq] at h
      exact frame_updateItem s i _ (fun f _ => ⟨rfl, rfl, fun _ => ⟨rfl, by simp⟩⟩) h.1
    · exact frame_refl s
  · exact frame_refl s

theorem frame_setFileError (s : State) (i : Int) (e : Option ErrorValue) :
    Frame s (setFileError s i e) := by
  unfold setFileError
  split
  · split
    · rename_i h
      simp only [inRange, Bool.and_eq_true, decide_eq_true_eq] at h
      exact frame_updateItem s i _ (fun f _ => ⟨rfl, rfl, fun _ => ⟨rfl, by simp⟩⟩) h.2.1
    · exact frame_refl s
  · exact frame_refl s

theorem frame_setRemoteFile (s : State) (i : Int) (d : File) (file : FileState)
    (hfile : getItem s.fileList i = some file) (hstate : file.state = Status.needsDownload) :
    Frame s (setRemoteFile s i d) := by
  unfold setRemoteFile
  split
  · refine frame_updateItem s i _ (fun f hf => ?_) (getItem_nonneg hfile)
    have : f = file := by rw [hfile] at hf; exact (Option.some.inj hf).symm
    subst this
    exact ⟨rfl, rfl, fun h => absurd hstate h⟩
  · exact frame_refl s

theorem frame_downloadState (env : Env) (s : State) (i : Int) (file : FileState)
    (o : RemoteOpts) (h0 : 0 ≤ i) : Frame s (downloadState env s i file o) := by
  unfold downloadState
  split
  · exact frame_updateItem s i _ (fun f _ => ⟨rfl, rfl, fun h => ⟨rfl, h⟩⟩) h0
  · exact frame_refl s

theorem frame_catchFileError (i : Int) (ret : State × Promise Unit) :
    Frame ret.1 (catchFileError i ret).1 := by
  obtain ⟨st, p⟩ := ret
  cases p with
  | resolved a => exact frame_refl st
  | pending => exact frame_refl st
  | rejected e =>
    cases e with
    | falsy => exact frame_refl st
    | thrown m => exact frame_setFileError st i _

theorem frame_catchFileError_mk (i : Int) (st : State) (p : Promise Unit) :
    Frame st (catchFileError i (st, p)).1 :=
  frame_catchFileError i (st, p)

theorem frame_andThen {α β : Type} (st : State) (q : Promise α)
    (cb : State → α → State × Promise β) (hcb : ∀ a, Frame st (cb st a).1) :
    Frame st (andThen (st, q) cb).1 := by
  cases q with
  | resolved a => exact hcb a
  | pending => exact frame_refl st
  | rejected e => exact frame_refl st

theorem frame_onFilesLoaded (i : Int) (st : State) (r : Option (List (Option ReaderBundle))) :
    Frame st (onFilesLoaded i st r).1 := by
  unfold onFilesLoaded
  split
  · exact frame_setFileReader st i _
  · exact frame_refl st

theorem readFileIndex_frame (env : Env) (fuel : Nat) (s : State) (fileIndex : Int) :
    Frame s (readFileIndex env fuel s fileIndex).1 := by
  induction fuel generalizing s with
  | zero => simp only [readFileIndex]; exact frame_refl s
  | succ n ih =>
    cases hget : getItem s.fileList fileIndex with
    | none => simp only [readFileIndex, hget]; exact frame_refl s
    | some file =>
      by_cases hterm : file.state = Status.ready ∨ file.state = Status.error
      · simp only [readFileIndex, hget, hterm, if_true]; exact frame_refl s
      · by_cases hdown : file.state = Status.needsDownload ∧ truthyString file.remoteURL = true
        · by_cases hopts : file.withGirderToken = true → ∃ o, file.remoteOpts = some o
          · have hex : ∃ o, file.withGirderToken = true → file.remoteOpts = some o := by
              by_cases hw : file.withGirderToken = true
              · obtain ⟨o, ho⟩ := hopts hw
                exact ⟨o, fun _ => ho⟩
              · exact ⟨{ headers := none }, fun h => absurd h hw⟩
            obtain ⟨o, ho⟩ := hex
            rw [readFileIndex_download_eq env n s fileIndex file o hget hdown.1 hdown.2 ho]
            refine frame_trans ?_ (frame_catchFileError fileIndex _)
            have hstart : Frame s (downloadReported env s fileIndex file o) :=
              frame_trans (frame_downloadState env s fileIndex file o (getItem_nonneg hget))
                (frame_of_fileList_eq (fileList_downloadReported env s fileIndex file o))
            obtain ⟨item, hitem, histate, -⟩ := getItem_downloadState_same env o hget
            rw [← fileList_downloadReported] at hitem
            cases hres : (downloadRun env s fileIndex file o).result with
            | resolved d =>
              simp only [andThen, catchWith, afterDownload]
              have hstep := frame_trans hstart
                (frame_trans (frame_setRemoteFile _ fileIndex d item hitem (histate.trans hdown.1))
                  (ih (setRemoteFile (downloadReported env s fileIndex file o) fileIndex d)))
              cases hrun : readFileIndex env n
                  (setRemoteFile (downloadReported env s fileIndex file o) fileIndex d)
                  fileIndex with
              | mk st res =>
                rw [hrun] at hstep
                cases res with
                | error e => exact hstep
                | ok q => cases q <;> exact hstep
            | rejected e => simpa only [andThen, catchWith] using hstart
            | pending => simpa only [andThen, catchWith] using hstart
          · have hw : file.withGirderToken = true := by
              by_contra hw
              exact hopts (fun h => absurd h hw)
            have hnone : file.remoteOpts = none := by
              cases hro : file.remoteOpts with
              | none => rfl
              | some o => exact absurd (fun _ => ⟨o, hro⟩) hopts
            simp only [readFileIndex, hget, hdown.1, hdown.2, hw, hnone]
            exact frame_refl s
        · simp only [readFileIndex, hget, hterm, hdown, if_false]
          split
          · split
            · split
              · exact frame_refl s
              · refine frame_trans (frame_setFileNeedsInfo s fileIndex) ?_
                refine frame_trans ?_ (frame_catchFileError fileIndex _)
                exact frame_andThen _ _ _ (fun a => frame_setFileReader _ fileIndex _)
            · exact frame_trans (frame_setFileNeedsInfo s fileIndex)
                (frame_catchFileError_mk fileIndex _ _)
          · split
            · refine frame_trans ?_ (frame_catchFileError fileIndex _)
              refine frame_andThen _ _ _ (fun a => ?_)
              cases a with
              | none => exact frame_refl s
              | some r => exact frame_setFileReader s fileIndex _
            · split
              · exact frame_setFileError s fileIndex _
              · refine frame_trans ?_ (frame_catchFileError fileIndex _)
                exact frame_andThen _ _ _ (fun a => frame_onFilesLoaded fileIndex s a)


theorem readAllFilesLoop_frame (env : Env) (fuel : Nat) (indices : List Nat) (s : State)
    (acc : List (Promise Unit)) : Frame s (readAllFilesLoop env fuel indices s acc).1 := by
  induction indices generalizing s acc with
  | nil => exact frame_refl s
  | cons i rest ih =>
    simp only [readAllFilesLoop]
    have hstep := readFileIndex_frame env fuel s (i : Int)
    cases hrun : readFileIndex env fuel s (i : Int) with
    | mk st res =>
      rw [hrun] at hstep
      cases res with
      | error e => exact hstep
      | ok q => exact frame_trans hstep (ih st _)

theorem readAllFiles_frame (env : Env) (fuel : Nat) (s : State) :
    Frame s (readAllFiles env fuel s).1 := by
  unfold readAllFiles
  have h := readAllFilesLoop_frame env fuel (List.range s.fileList.length) s []
  cases hrun : readAllFilesLoop env fuel (List.range s.fileList.length) s [] with
  | mk st res =>
    rw [hrun] at h
    cases res <;> exact h

/-! ## Reading an item writes only its own slot -/

theorem untouched_refl (k : Int) (s : State) : Untouched k s s :=
  fun _ _ => rfl

theorem untouched_trans {k : Int} {s t u : State} (h1 : Untouched k s t)
    (h2 : Untouched k t u) : Untouched k s u :=
  fun j hj => (h2 j hj).trans (h1 j hj)

theorem untouched_of_fileList_eq (k : Int) {s t : State} (h : t.fileList = s.fileList) :
    Untouched k s t := by
  intro j _
  rw [h]

theorem untouched_updateItem (s : State) (k : Int) (g : FileState → FileState) (h0 : 0 ≤ k) :
    Untouched k s (updateItem s k g) :=
  fun _ hj => getItem_updateItem_of_ne s h0 hj g

theorem untouched_setFileNeedsInfo (s : State) (k : Int) :
    Untouched k s (setFileNeedsInfo s k) := by
  unfold setFileNeedsInfo
  split
  · rename_i h
    simp only [inRange, Bool.and_eq_true, decide_eq_true_eq] at h
    exact untouched_updateItem s k _ h.1
  · exact untouched_refl k s

theorem untouched_setFileReader (s : State) (k : Int) (r : Option ReaderBundle) :
    Untouched k s (setFileReader s k r) := by
  unfold setFileReader
  split
  · split
    · rename_i h
      simp only [inRange, Bool.and_eq_true, decide_eq_true_eq] at h
      exact untouched_updateItem s k _ h.1
    · exact untouched_refl k s
  · exact untouched_refl k s

theorem untouched_setFileError (s : State) (k : Int) (e : Option ErrorValue) :
    Untouched k s (setFileError s k e) :=
  fun _ hj => getItem_setFileError_of_ne s e hj

theorem untouched_setRemoteFile (s : State) (k : Int) (d : File) :
    Untouched k s (setRemoteFile s k d) := by
  unfold setRemoteFile
  split
  · rename_i h
    simp only [inRange, Bool.and_eq_true, decide_eq_true_eq] at h
    exact untouched_updateItem s k _ h.1
  · exact untouched_refl k s

theorem untouched_catchFileError (k : Int) (ret : State × Promise Unit) :
    Untouched k ret.1 (catchFileError k ret).1 := by
  obtain ⟨st, p⟩ := ret
  cases p with
  | resolved a => exact untouched_refl k st
  | pending => exact untouched_refl k st
  | rejected e =>
    cases e with
    | falsy => exact untouched_refl k st
    | thrown m => exact untouched_setFileError st k _

theorem untouched_catchFileError_mk (k : Int) (st : State) (p : Promise Unit) :
    Untouched k st (catchFileError k (st, p)).1 :=
  untouched_catchFileError k (st, p)

theorem untouched_andThen {α β : Type} (k : Int) (st : State) (q : Promise α)
    (cb : State → α → State × Promise β) (hcb : ∀ a, Untouched k st (cb st a).1) :
    Untouched k st (andThen (st, q) cb).1 := by
  cases q with
  | resolved a => exact hcb a
  | pending => exact untouched_refl k st
  | rejected e => exact untouched_refl k st

theorem untouched_onFilesLoaded (k : Int) (st : State)
    (r : Option (List (Option ReaderBundle))) : Untouched k st (onFilesLoaded k st r).1 := by
  unfold onFilesLoaded
  split
  · exact untouched_setFileReader st k _
  · exact untouched_refl k st

theorem readFileIndex_untouched (env : Env) (fuel : Nat) (s : State) (fileIndex : Int) :
    Untouched fileIndex s (readFileIndex env fuel s fileIndex).1 := by
  induction fuel generalizing s with
  | zero => simp only [readFileIndex]; exact untouched_refl _ s
  | succ n ih =>
    cases hget : getItem s.fileList fileIndex with
    | none => simp only [readFileIndex, hget]; exact untouched_refl _ s
    | some file =>
      by_cases hterm : file.state = Status.ready ∨ file.state = Status.error
      · simp only [readFileIndex, hget, hterm, if_true]; exact untouched_refl _ s
      · by_cases hdown : file.state = Status.needsDownload ∧ truthyString file.remoteURL = true
        · by_cases hopts : file.withGirderToken = true → ∃ o, file.remoteOpts = some o
          · have hex : ∃ o, file.withGirderToken = true → file.remoteOpts = some o := by
              by_cases hw : file.withGirderToken = true
              · obtain ⟨o, ho⟩ := hopts hw
                exact ⟨o, fun _ => ho⟩
              · exact ⟨{ headers := none }, fun h => absurd h hw⟩
            obtain ⟨o, ho⟩ := hex
            rw [readFileIndex_download_eq env n s fileIndex file o hget hdown.1 hdown.2 ho]
            refine untouched_trans ?_ (untouched_catchFileError fileIndex _)
            have hstart : Untouched fileIndex s (downloadReported env s fileIndex file o) :=
              untouched_trans
                (fun j hj => getItem_downloadState_of_ne env s file o (getItem_nonneg hget) hj)
                (untouched_of_fileList_eq _ (fileList_downloadReported env s fileIndex file o))
            cases hres : (downloadRun env s fileIndex file o).result with
            | resolved d =>
              simp only [andThen, catchWith, afterDownload]
              have hstep := untouched_trans hstart
                (untouched_trans (untouched_setRemoteFile _ fileIndex d)
                  (ih (setRemoteFile (downloadReported env s fileIndex file o) fileIndex d)))
              cases hrun : readFileIndex env n
                  (setRemoteFile (downloadReported env s fileIndex file o) fileIndex d)
                  fileIndex with
              | mk st res =>
                rw [hrun] at hstep
                cases res with
                | error e => exact hstep
                | ok q => cases q <;> exact hstep
            | rejected e => simpa only [andThen, catchWith] using hstart
            | pending => simpa only [andThen, catchWith] using hstart
          · have hw : file.withGirderToken = true := by
              by_contra hw
              exact hopts (fun h => absurd h hw)
            have hnone : file.remoteOpts = none := by
              cases hro : file.remoteOpts with
              | none => rfl
              | some o => exact absurd (fun _ => ⟨o, hro⟩) hopts
            simp only [readFileIndex, hget, hdown.1, hdown.2, hw, hnone]
            exact untouched_refl _ s
        · simp only [readFileIndex, hget, hterm, hdown, if_false]
          split
          · split
            · split
              · exact untouched_refl _ s
              · refine untouched_trans (untouched_setFileNeedsInfo s fileIndex) ?_
                refine untouched_trans ?_ (untouched_catchFileError fileIndex _)
                exact untouched_andThen _ _ _ _ (fun a => untouched_setFileReader _ fileIndex _)
            · exact untouched_trans (untouched_setFileNeedsInfo s fileIndex)
                (untouched_catchFileError_mk fileIndex _ _)
          · split
            · refine untouched_trans ?_ (untouched_catchFileError fileIndex _)
              refine untouched_andThen _ _ _ _ (fun a => ?_)
              cases a with
              | none => exact untouched_refl _ s
              | some r => exact untouched_setFileReader s fileIndex _
            · split
              · exact untouched_setFileError s fileIndex _
              · refine untouched_trans ?_ (untouched_catchFileError fileIndex _)
                exact untouched_andThen _ _ _ _ (fun a => untouched_onFilesLoaded fileIndex s a)

/-! ## The duplicate check over a whole pass -/

theorem forall2_kept_ext {l1 l2 : List FileState} (h : List.Forall₂ Kept l1 l2) :
    l2.map (fun f => f.ext) = l1.map (fun f => f.ext) := by
  induction h with
  | nil => rfl
  | cons hab _ ih => simp only [List.map_cons, ih, hab.2.1]

theorem stateFileBefore_of_frame {s t : State} (h : Frame s t) (k : Int) :
    stateFileBefore t k = stateFileBefore s k := by
  have hext : t.fileList.map (fun f => f.ext) = s.fileList.map (fun f => f.ext) :=
    forall2_kept_ext h
  have hany : ∀ l : List FileState,
      l.any (fun f => decide (f.ext = "glance"))
        = (l.map (fun f => f.ext)).any (fun e => decide (e = "glance")) := by
    intro l
    induction l with
    | nil => rfl
    | cons a l ih => simp [List.any_cons, ih]
  unfold stateFileBefore
  rw [hany, hany, List.map_take, List.map_take, hext]

theorem downloadRun_congr (env : Env) {s t : State} {j : Int} {fj : FileState} (o : RemoteOpts)
    (hs : getItem s.fileList j = some fj) (ht : getItem t.fileList j = some fj) :
    downloadRun env t j fj o = downloadRun env s j fj o := by
  unfold downloadRun downloadState
  cases fj.withGirderToken with
  | false => simp [hs, ht]
  | true =>
    simp only [if_true]
    rw [getItem_updateItem_same hs, getItem_updateItem_same ht]

theorem readAllFilesLoop_untouched (env : Env) (fuel : Nat) (indices : List Nat) (j : Int)
    (hj : ∀ i ∈ indices, (i : Int) ≠ j) (s : State) (acc : List (Promise Unit)) :
    getItem (readAllFilesLoop env fuel indices s acc).1.fileList j = getItem s.fileList j := by
  induction indices generalizing s acc with
  | nil => rfl
  | cons i rest ih =>
    have hi : j ≠ (i : Int) := fun h => hj i (List.mem_cons_self _ _) h.symm
    have hstep := readFileIndex_untouched env fuel s (i : Int) j hi
    simp only [readAllFilesLoop]
    cases hrun : readFileIndex env fuel s (i : Int) with
    | mk st res =>
      rw [hrun] at hstep
      cases res with
      | error e => exact hstep
      | ok q =>
        exact (ih (fun k hk => hj k (List.mem_cons_of_mem _ hk)) st _).trans hstep

theorem readAllFilesLoop_item (env : Env) (fuel : Nat) (indices : List Nat) (j : Nat)
    (hnodup : indices.Nodup) (hj : j ∈ indices) (s : State) (acc : List (Promise Unit))
    (t : State) (ps : List (Promise Unit))
    (h : readAllFilesLoop env fuel indices s acc = (t, .ok ps)) :
    ∃ s1, Frame s s1 ∧ getItem s1.fileList (j : Int) = getItem s.fileList (j : Int) ∧
      getItem t.fileList (j : Int)
        = getItem (readFileIndex env fuel s1 (j : Int)).1.fileList (j : Int) := by
  induction indices generalizing s acc with
  | nil => exact absurd hj (List.not_mem_nil _)
  | cons i rest ih =>
    have hnd := List.nodup_cons.mp hnodup
    simp only [readAllFilesLoop] at h
    cases hrun : readFileIndex env fuel s (i : Int) with
    | mk st res =>
      rw [hrun] at h
      cases res with
      | error e => simp at h
      | ok q =>
        simp only at h
        by_cases hij : i = j
        · subst hij
          refine ⟨s, frame_refl s, rfl, ?_⟩
          have hrest := readAllFilesLoop_untouched env fuel rest (i : Int)
            (fun k hk hkj => hnd.1 (by
              have : k = i := by exact_mod_cast hkj
              rw [← this]; exact hk))
            st (acc ++ [q])
          rw [h] at hrest
          rw [hrun]
          exact hrest
        · have hjr : j ∈ rest := by
            rcases List.mem_cons.mp hj with h1 | h1
            · exact absurd h1.symm hij
            · exact h1
          obtain ⟨s1, hf, hsame, hfinal⟩ := ih hnd.2 hjr st (acc ++ [q]) h
          have hstep := readFileIndex_frame env fuel s (i : Int)
          have hunt := readFileIndex_untouched env fuel s (i : Int) (j : Int)
            (by intro hh; exact hij (by exact_mod_cast hh.symm))
          rw [hrun] at hstep hunt
          exact ⟨s1, frame_trans hstep hf, hsame.trans hunt, hfinal⟩

/-- C4, as stated, fails: with a local state file followed by a remote state file whose
download fails, running `readFileIndex` on every item leaves the later item in state
`error` with the download message, and no item carries the duplicate-state-file cause. -/
theorem duplicate_state_file_counterexample :
    statesOf (readAllFiles Env.offline 2
      (storeOf [localItem "a.glance" [], remoteItem "b.glance" "https://host/b.glance"])).1
      = [Status.ready, Status.error] ∧
    errorsOf (readAllFiles Env.offline 2
      (storeOf [localItem "a.glance" [], remoteItem "b.glance" "https://host/b.glance"])).1
      = [none, some (.text "Failed to download file")] := by
  decide

/-- C4 amended: in a file list whose only items with extension `glance` are at positions
i < j, the duplicate check of `readFileIndex` rejects exactly the item at j.  When
`readFileIndex` reaches that check for the item at j (the item is not already `ready` or
`error`, and a pending download of it succeeds), the item ends in state `error` with the
cause 'Cannot load multiple state files' and the promise resolves.  The item at i, when it
is neither `ready`, `error` nor pending download, is handed to `ReaderFactory.loadFiles`.
The same holds for the item at j after `readAllFiles` has read every item. -/
theorem duplicate_state_file_check (env : Env) (fuel : Nat) (s : State) (i j : Int)
    (fi fj : FileState)
    (hi : getItem s.fileList i = some fi) (hie : fi.ext = "glance")
    (hj : getItem s.fileList j = some fj) (hje : fj.ext = "glance")
    (hij : i < j)
    (honly : ∀ k f, getItem s.fileList k = some f → f.ext = "glance" → k = i ∨ k = j) :
    (∀ k f, getItem s.fileList k = some f →
      ((f.ext = "glance" ∧ stateFileBefore s k = true) ↔ k = j)) ∧
    (fj.state ≠ Status.ready → fj.state ≠ Status.error →
      (fj.state = Status.needsDownload ∧ truthyString fj.remoteURL = true →
        ∃ o d, (fj.withGirderToken = true → fj.remoteOpts = some o) ∧
          (downloadRun env s j fj o).result = .resolved d) →
      (readFileIndex env (fuel + 2) s j).2 = .ok (.resolved ()) ∧
      ∃ item, getItem (readFileIndex env (fuel + 2) s j).1.fileList j = some item ∧
        item.state = Status.error ∧
        item.error = some (.errorObject "Cannot load multiple state files")) ∧
    (fi.state ≠ Status.ready → fi.state ≠ Status.error →
      ¬ (fi.state = Status.needsDownload ∧ truthyString fi.remoteURL = true) →
      readFileIndex env (fuel + 1) s i =
        ((catchFileError i (andThen (s, env.loadFiles fi.files) (onFilesLoaded i))).1,
          .ok (catchFileError i (andThen (s, env.loadFiles fi.files) (onFilesLoaded i))).2)) ∧
    (fj.state ≠ Status.ready → fj.state ≠ Status.error →
      (fj.state = Status.needsDownload ∧ truthyString fj.remoteURL = true →
        ∃ o d, (fj.withGirderToken = true → fj.remoteOpts = some o) ∧
          (downloadRun env s j fj o).result = .resolved d) →
      ∀ t p, readAllFiles env (fuel + 2) s = (t, .ok p) →
        ∃ item, getItem t.fileList j = some item ∧ item.state = Status.error ∧
          item.error = some (.errorObject "Cannot load multiple state files")) := by
  have hi0 := getItem_nonneg hi
  have hnot_i : ¬ stateFileBefore s i = true := by
    intro hb
    obtain ⟨m, f, hlt, hget, hext⟩ := (stateFileBefore_iff s i).mp hb
    rcases honly _ f hget hext with h | h <;> omega
  have hyes_j : stateFileBefore s j = true := by
    refine (stateFileBefore_iff s j).mpr ⟨i.toNat, fi, by omega, ?_, hie⟩
    have : ((i.toNat : Nat) : Int) = i := Int.toNat_of_nonneg hi0
    rw [this]; exact hi
  refine ⟨?_, ?_, ?_, ?_⟩
  · intro k f hk
    constructor
    · rintro ⟨hext, hb⟩
      rcases honly k f hk hext with h | h
      · rw [h] at hb; exact absurd hb hnot_i
      · exact h
    · intro hkj
      subst hkj
      have : f = fj := by rw [hj] at hk; exact (Option.some.inj hk).symm
      subst this
      exact ⟨hje, hyes_j⟩
  · intro hready herror hdl
    exact duplicate_rejected env fuel s j fj hj hje hyes_j hready herror hdl
  · intro hready herror hdown
    simp only [readFileIndex, hi, hready, herror, hdown, hie, hnot_i]
    simp
  · intro hready herror hdl t p hrun
    have hlt := getItem_lt hj
    have hj0 := getItem_nonneg hj
    have hcast : ((j.toNat : Nat) : Int) = j := Int.toNat_of_nonneg hj0
    have hloop : ∃ ps, readAllFilesLoop env (fuel + 2) (List.range s.fileList.length) s []
        = (t, .ok ps) := by
      unfold readAllFiles at hrun
      cases hl : readAllFilesLoop env (fuel + 2) (List.range s.fileList.length) s [] with
      | mk st res =>
        rw [hl] at hrun
        cases res with
        | error e => simp at hrun
        | ok ps =>
          simp only [Prod.mk.injEq] at hrun
          exact ⟨ps, by rw [hrun.1]⟩
    obtain ⟨ps, hps⟩ := hloop
    obtain ⟨s1, hframe, hsame, hfinal⟩ := readAllFilesLoop_item env (fuel + 2)
      (List.range s.fileList.length) j.toNat (List.nodup_range _) (List.mem_range.mpr hlt)
      s [] t ps hps
    rw [hcast] at hsame hfinal
    have hj1 : getItem s1.fileList j = some fj := hsame.trans hj
    have hb1 : stateFileBefore s1 j = true := (stateFileBefore_of_frame hframe j).trans hyes_j
    have hdl1 : fj.state = Status.needsDownload ∧ truthyString fj.remoteURL = true →
        ∃ o d, (fj.withGirderToken = true → fj.remoteOpts = some o) ∧
          (downloadRun env s1 j fj o).result = .resolved d := by
      intro h
      obtain ⟨o, d, ho, hd⟩ := hdl h
      exact ⟨o, d, ho, by rw [downloadRun_congr env o hj hj1]; exact hd⟩
    obtain ⟨-, item, hitem, hst, herr⟩ :=
      duplicate_rejected env fuel s1 j fj hj1 hje hb1 hready herror hdl1
    exact ⟨item, hfinal.trans hitem, hst, herr⟩


theorem duplicate_state_file_check_witness :
    ∃ item, getItem (readAllFiles Env.idle 2
        (storeOf [localItem "a.glance" [], localItem "b.glance" []])).1.fileList 1 = some item ∧
      item.state = Status.error ∧
      item.error = some (.errorObject "Cannot load multiple state files") :=
  (duplicate_state_file_check Env.idle 0
    (storeOf [localItem "a.glance" [], localItem "b.glance" []]) 0 1
    (localItem "a.glance" []) (localItem "b.glance" [])
    (by decide) (by decide) (by decide) (by decide) (by decide)
    (by
      intro k f hk _
      have h0 := getItem_nonneg hk
      have h1 := getItem_lt hk
      simp only [storeOf, List.length_cons, List.length_nil] at h1
      omega)).2.2.2 (by decide) (by decide) (fun h => absurd h.1 (by decide))
    (readAllFiles Env.idle 2 (storeOf [localItem "a.glance" [], localItem "b.glance" []])).1
    (.resolved [(), ()]) rfl

/-! ## Classification of a batch -/

theorem addToFileList_fileList (s : State) (infos : List FileInfo) :
    (addToFileList s infos).fileList = s.fileList ++ infos.map makeFileState := by
  unfold addToFileList
  induction infos generalizing s with
  | nil => simp
  | cons a rest ih => simp [List.foldl_cons, ih]

theorem addToFileList_rest (s : State) (infos : List FileInfo) :
    (addToFileList s infos).progress = s.progress ∧
    (addToFileList s infos).loading = s.loading := by
  unfold addToFileList
  induction infos generalizing s with
  | nil => simp
  | cons a rest ih => simp [List.foldl_cons, ih]

theorem commitBatch_fileList (s : State) (files : List File) :
    (commitBatch s files).fileList = s.fileList ++ classifyBatch files := by
  unfold commitBatch classifyBatch
  cases hd : files.filter (fun f => decide (getExtension f.name = "dcm")) with
  | nil =>
    simp [addToFileList_fileList, List.map_map, Function.comp_def, makeFileState, regularItem,
      FileInfo.name, FileInfo.proxyKeys]
  | cons first rest =>
    simp [addToFileList_fileList, List.map_map, Function.comp_def, makeFileState, regularItem,
      seriesItem, FileInfo.name, FileInfo.proxyKeys]

theorem openFiles_no_zip (env : Env) (fuel rounds : Nat) (s : State) (files : List File)
    (hzip : ∀ f ∈ files, getExtension f.name ≠ "zip") :
    openFiles env fuel rounds s files = readAllFiles env fuel (commitBatch s files) := by
  have hnil : files.filter (fun f => decide (getExtension f.name = "zip")) = [] := by
    rw [List.filter_eq_nil_iff]
    intro f hf
    simpa using hzip f hf
  unfold openFiles
  simp [hnil]

/-- C10: for a batch without archives, `openFiles` adds to the file list, first, one item
holding all files with extension `dcm` in encounter order and named after the first of
them (no such item when there is none), then one item per other file with
`files = [that file]`, in encounter order, and reads every item, which keeps the names,
extensions and files of these items; the file list grows by (1 if any dcm file else 0)
+ (number of other files), and an empty batch adds no item. -/
theorem openFiles_classifies (env : Env) (fuel rounds : Nat) (s : State) (files : List File)
    (hzip : ∀ f ∈ files, getExtension f.name ≠ "zip") :
    openFiles env fuel rounds s files = readAllFiles env fuel (commitBatch s files) ∧
    (commitBatch s files).fileList = s.fileList ++ classifyBatch files ∧
    Frame (commitBatch s files) (openFiles env fuel rounds s files).1 ∧
    (openFiles env fuel rounds s files).1.fileList.length =
      s.fileList.length
        + (if files.filter (fun f => decide (getExtension f.name = "dcm")) = [] then 0 else 1)
        + (files.filter (fun f => !decide (getExtension f.name = "dcm"))).length ∧
    (openFiles env fuel rounds s []).1.fileList.length = s.fileList.length := by
  have hopen := openFiles_no_zip env fuel rounds s files hzip
  have hframe := readAllFiles_frame env fuel (commitBatch s files)
  have hlen : ∀ fs : List File, (readAllFiles env fuel (commitBatch s fs)).1.fileList.length
      = s.fileList.length + (classifyBatch fs).length := by
    intro fs
    have h := (readAllFiles_frame env fuel (commitBatch s fs)).length_eq
    rw [← h, commitBatch_fileList, List.length_append]
  refine ⟨hopen, commitBatch_fileList s files, by rw [hopen]; exact hframe, ?_, ?_⟩
  · rw [hopen, hlen files]
    unfold classifyBatch
    cases hd : files.filter (fun f => decide (getExtension f.name = "dcm")) with
    | nil => simp
    | cons first rest => simp; omega
  · rw [openFiles_no_zip env fuel rounds s [] (by simp), hlen []]
    simp [classifyBatch]


theorem openFiles_classifies_witness :
    (commitBatch (storeOf [])
      [{ name := "s1.dcm", bytes := [] }, { name := "mesh.vtp", bytes := [] },
       { name := "s2.DCM", bytes := [] }]).fileList =
      (storeOf []).fileList ++ classifyBatch
        [{ name := "s1.dcm", bytes := [] }, { name := "mesh.vtp", bytes := [] },
         { name := "s2.DCM", bytes := [] }] ∧
    (openFiles Env.idle 2 1 (storeOf [])
      [{ name := "s1.dcm", bytes := [] }, { name := "mesh.vtp", bytes := [] },
       { name := "s2.DCM", bytes := [] }]).1.fileList.length =
      (storeOf []).fileList.length
        + (if [{ name := "s1.dcm", bytes := [] }, { name := "mesh.vtp", bytes := [] },
            ({ name := "s2.DCM", bytes := [] } : File)].filter
              (fun f => decide (getExtension f.name = "dcm")) = [] then 0 else 1)
        + ([{ name := "s1.dcm", bytes := [] }, { name := "mesh.vtp", bytes := [] },
            ({ name := "s2.DCM", bytes := [] } : File)].filter
              (fun f => !decide (getExtension f.name = "dcm"))).length :=
  ⟨(openFiles_classifies Env.idle 2 1 (storeOf []) _ (by decide)).2.1,
   (openFiles_classifies Env.idle 2 1 (storeOf []) _ (by decide)).2.2.2.1⟩

/-! ## The action `load` -/

theorem loadFiles_all {PM : Type} (scene : Scene PM) (files : List FileState) (pm : PM)
    (events : List SceneEvent) (ret : List Proxy) (h : ∀ f ∈ files, f.reader ≠ none) :
    ∃ pm1 ret1, loadFiles scene files pm events ret =
      { pm := pm1, events := events ++ files.filterMap (registrationOf scene),
        outcome := .ok ret1 } := by
  induction files generalizing pm events ret with
  | nil => exact ⟨pm, ret, by simp [loadFiles]⟩
  | cons f rest ih =>
    have hf := h f (List.mem_cons_self _ _)
    cases hr : f.reader with
    | none => exact absurd hr hf
    | some r =>
      obtain ⟨pm1, ret1, hrest⟩ := ih
        (scene.registerReadersToProxyManager pm
          { bundle := readerBundleOf scene f r, proxyKeys := f.proxyKeys }).1
        (events ++ [SceneEvent.register
          { bundle := readerBundleOf scene f r, proxyKeys := f.proxyKeys }])
        (ret ++ (scene.registerReadersToProxyManager pm
          { bundle := readerBundleOf scene f r, proxyKeys := f.proxyKeys }).2.filterMap id)
        (fun g hg => h g (List.mem_cons_of_mem _ hg))
      refine ⟨pm1, ret1, ?_⟩
      simp only [loadFiles, hr, hrest]
      simp [registrationOf, hr]

theorem measurementEvents_prefix (lastSourcePID : String) (files : List FileState)
    (events : List SceneEvent) :
    ∃ t, (measurementEvents lastSourcePID files events).1 = events ++ t := by
  induction files generalizing events with
  | nil => exact ⟨[], by simp [measurementEvents]⟩
  | cons f rest ih =>
    simp only [measurementEvents]
    split
    · exact ⟨[], by simp⟩
    · split
      · exact ⟨[], by simp⟩
      · exact ih events
      · rename_i ms _
        obtain ⟨t, ht⟩ := ih (events ++ ms.map (fun m =>
          SceneEvent.addMeasurementTool lastSourcePID m.componentName m.data))
        exact ⟨_, by rw [ht, List.append_assoc]⟩

theorem registerReadyFiles_events {PM : Type} (scene : Scene PM) (readyFiles : List FileState)
    (pm : PM) (events : List SceneEvent) (h : ∀ f ∈ readyFiles, f.reader ≠ none) :
    ∃ tail, (registerReadyFiles scene readyFiles pm events).events =
      events
        ++ (regularFilesOf (readyFiles.filter (fun f => !decide (f.ext = "glance")))).filterMap
            (registrationOf scene)
        ++ (labelmapFilesOf (readyFiles.filter (fun f => !decide (f.ext = "glance")))).filterMap
            (registrationOf scene)
        ++ tail := by
  have hreg : ∀ f ∈ regularFilesOf (readyFiles.filter (fun f => !decide (f.ext = "glance"))),
      f.reader ≠ none := by
    intro f hf
    exact h f (List.mem_of_mem_filter (List.mem_of_mem_filter hf))
  have hlab : ∀ f ∈ labelmapFilesOf (readyFiles.filter (fun f => !decide (f.ext = "glance"))),
      f.reader ≠ none := by
    intro f hf
    exact h f (List.mem_of_mem_filter (List.mem_of_mem_filter hf))
  obtain ⟨pm1, ret1, h1⟩ := loadFiles_all scene _ pm events [] hreg
  obtain ⟨pm2, ret2, h2⟩ := loadFiles_all scene _ pm1
    (events ++ (regularFilesOf
      (readyFiles.filter (fun f => !decide (f.ext = "glance")))).filterMap (registrationOf scene))
    [] hlab
  unfold registerReadyFiles
  simp only [h1, h2]
  split
  · exact ⟨[], by simp⟩
  · rename_i lastSource _
    obtain ⟨t, ht⟩ := measurementEvents_prefix lastSource.proxyId
      (measurementFilesOf (readyFiles.filter (fun f => !decide (f.ext = "glance"))))
      (events
        ++ (regularFilesOf (readyFiles.filter (fun f => !decide (f.ext = "glance")))).filterMap
            (registrationOf scene)
        ++ (labelmapFilesOf (readyFiles.filter (fun f => !decide (f.ext = "glance")))).filterMap
            (registrationOf scene)
        ++ ret2.map (fun lmProxy =>
            SceneEvent.addLabelmapToImage lastSource.proxyId lmProxy.proxyId))
    simp only [ht]
    exact ⟨ret2.map (fun lmProxy =>
        SceneEvent.addLabelmapToImage lastSource.proxyId lmProxy.proxyId) ++ t ++
      (ret2.filter (fun lmProxy =>
        decide (scene.addLabelmapToImage lastSource.proxyId lmProxy.proxyId = .resolved ()))).map
        (fun lmProxy => SceneEvent.setLabelmapState lmProxy.proxyId 1 1),
      by simp only [List.append_assoc]⟩


/-- C6, as stated, fails: with a ready state file whose restore succeeds and one other
ready item, `load` registers the other item with the proxy manager in the same pass, right
after the restore. -/
theorem load_state_file_counterexample :
    (load Scene.simple
      (storeOf [readyItem "session.glance" (stateBundle "session.glance"),
        readyItem "volume.vti" (bundleOf "volume.vti")]) []).events
      = [SceneEvent.restoreAppState { tag := 0, getOutputData := none },
         SceneEvent.register
          { bundle := { name := "volume.vti", dataset := none, reader := none,
                        metadata := some [] },
            proxyKeys := none }] ∧
    (load Scene.simple
      (storeOf [readyItem "session.glance" (stateBundle "session.glance"),
        readyItem "volume.vti" (bundleOf "volume.vti")]) []).pm
      = [{ proxyId := "volume.vti", proxyName := "TrivialProducer" }] := by
  decide

/-- C6 amended: in `load`, when a ready state file is present (every ready item holding a
reader bundle) and its parse succeeds, `restoreAppState` is called first; when it
succeeds, every other ready item that is a regular file or a labelmap is then registered
with the proxy manager in the same pass (regular files first, then labelmaps, in list
order); when it fails, nothing is registered and the promise of `load` is rejected. -/
theorem load_restores_then_registers {PM : Type} (scene : Scene PM) (s : State) (pm : PM)
    (file : FileState) (bundle : ReaderBundle) (reader : VtkReader)
    (hfind : (readyFilesOf s).find? (fun f => decide (f.ext = "glance")) = some file)
    (hbundle : file.reader = some bundle) (hreader : bundle.reader = some reader)
    (hparse : scene.parseAsArrayBuffer reader = .resolved ())
    (hready : ∀ f ∈ readyFilesOf s, f.reader ≠ none) :
    ((scene.restoreAppState pm reader).2 = .resolved () →
      ∃ tail, (load scene s pm).events =
        SceneEvent.restoreAppState reader ::
          ((regularFilesOf (otherFilesOf s)).filterMap (registrationOf scene)
            ++ (labelmapFilesOf (otherFilesOf s)).filterMap (registrationOf scene) ++ tail)) ∧
    (∀ e, (scene.restoreAppState pm reader).2 = .rejected e →
      (load scene s pm).events = [SceneEvent.restoreAppState reader] ∧
      (load scene s pm).promise = .ok (.rejected e)) := by
  have hfind2 : (List.filter (fun f => decide (f.state = Status.ready))
      (clearProgresses (startLoading s)).fileList).find? (fun f => decide (f.ext = "glance"))
      = some file := hfind
  constructor
  · intro hres
    obtain ⟨tail, htail⟩ := registerReadyFiles_events scene (readyFilesOf s)
      (scene.restoreAppState pm reader).1 [SceneEvent.restoreAppState reader] hready
    refine ⟨tail, ?_⟩
    have hev : (load scene s pm).events =
        (registerReadyFiles scene (readyFilesOf s) (scene.restoreAppState pm reader).1
          [SceneEvent.restoreAppState reader]).events := by
      unfold load
      simp only [hfind2, hbundle, hreader, hparse, hres]
      split <;> rfl
    rw [hev, htail]
    simp [otherFilesOf]
  · intro e hres
    unfold load
    simp only [hfind2, hbundle, hreader, hparse, hres]
    exact ⟨trivial, trivial⟩


theorem load_restores_then_registers_witness :
    ∃ tail, (load Scene.simple
      (storeOf [readyItem "session.glance" (stateBundle "session.glance"),
        readyItem "volume.vti" (bundleOf "volume.vti")]) []).events =
      SceneEvent.restoreAppState { tag := 0, getOutputData := none } ::
        ((regularFilesOf (otherFilesOf
            (storeOf [readyItem "session.glance" (stateBundle "session.glance"),
              readyItem "volume.vti" (bundleOf "volume.vti")]))).filterMap
            (registrationOf Scene.simple)
          ++ (labelmapFilesOf (otherFilesOf
            (storeOf [readyItem "session.glance" (stateBundle "session.glance"),
              readyItem "volume.vti" (bundleOf "volume.vti")]))).filterMap
            (registrationOf Scene.simple) ++ tail) :=
  (load_restores_then_registers Scene.simple
    (storeOf [readyItem "session.glance" (stateBundle "session.glance"),
      readyItem "volume.vti" (bundleOf "volume.vti")]) []
    (readyItem "session.glance" (stateBundle "session.glance")) (stateBundle "session.glance")
    { tag := 0, getOutputData := none } (by decide) rfl rfl rfl (by decide)).1 rfl

/-! ## The function `getExtension` -/

theorem lastIndexOfFrom_not_mem (c : Char) (s : List Char) (i : Nat) (acc : Int)
    (h : c ∉ s) : lastIndexOfFrom c s i acc = acc := by
  induction s generalizing i acc with
  | nil => rfl
  | cons x xs ih =>
    have hx : x ≠ c := fun e => h (by simp [e])
    have hxs : c ∉ xs := fun e => h (List.mem_cons_of_mem _ e)
    simp [lastIndexOfFrom, hx, ih _ _ hxs]

theorem lastIndexOfFrom_mem (c : Char) (s : List Char) (i : Nat) (acc : Int) (h : c ∈ s) :
    ∃ pre post, s = pre ++ c :: post ∧ c ∉ post ∧
      lastIndexOfFrom c s i acc = (i : Int) + (pre.length : Int) := by
  induction s generalizing i acc with
  | nil => exact absurd h (List.not_mem_nil _)
  | cons x xs ih =>
    by_cases hxs : c ∈ xs
    · obtain ⟨pre, post, hs, hpost, hidx⟩ := ih (i + 1) (if x = c then (i : Int) else acc) hxs
      refine ⟨x :: pre, post, by simp [hs], hpost, ?_⟩
      simp only [lastIndexOfFrom, hidx, List.length_cons]
      push_cast
      ring
    · have hx : x = c := by
        rcases List.mem_cons.mp h with h1 | h1
        · exact h1.symm
        · exact absurd h1 hxs
      refine ⟨[], xs, by simp [hx], hxs, ?_⟩
      simp [lastIndexOfFrom, hx, lastIndexOfFrom_not_mem c xs _ _ hxs]

theorem getExtension_no_dot (filename : String) (h : '.' ∉ filename.data) :
    getExtension filename = "" := by
  simp [getExtension, lastIndexOf, lastIndexOfFrom_not_mem '.' filename.data 0 (-1) h]

theorem getExtension_split (filename : String) (pre post : List Char)
    (hs : filename.data = pre ++ '.' :: post) (hpost : '.' ∉ post) :
    getExtension filename = String.mk (toLowerCase post) := by
  have hmem : '.' ∈ filename.data := by simp [hs]
  obtain ⟨pre2, post2, hs2, hpost2, hidx⟩ := lastIndexOfFrom_mem '.' filename.data 0 (-1) hmem
  have hsame : pre2 = pre ∧ post2 = post := by
    have heq : pre2 ++ '.' :: post2 = pre ++ '.' :: post := hs2.symm.trans hs
    have := List.append_eq_append_iff.mp heq
    rcases this with ⟨a, h1, h2⟩ | ⟨a, h1, h2⟩
    · cases a with
      | nil =>
        simp only [List.append_nil, List.nil_append, List.cons.injEq, true_and] at h1 h2
        exact ⟨h1.symm, h2⟩
      | cons y ys =>
        simp only [List.cons_append, List.cons.injEq] at h2
        exact absurd (by rw [h2.2]; simp) hpost2
    · cases a with
      | nil =>
        simp only [List.append_nil, List.nil_append, List.cons.injEq, true_and] at h1 h2
        exact ⟨h1, h2.symm⟩
      | cons y ys =>
        simp only [List.cons_append, List.cons.injEq] at h2
        exact absurd (by rw [h2.2]; simp) hpost
  have hi : lastIndexOf filename.data '.' = (pre.length : Int) := by
    unfold lastIndexOf
    rw [hidx, hsame.1]
    simp
  have hgt : (pre.length : Int) > -1 := by omega
  have hnat : ((pre.length : Int) + 1).toNat = pre.length + 1 := by omega
  simp only [getExtension, hi, hgt, if_true, hnat]
  rw [hs]
  congr 2
  rw [List.drop_append_eq_append_drop]
  simp

theorem exists_last_dot (s : List Char) (h : '.' ∈ s) :
    ∃ pre post, s = pre ++ '.' :: post ∧ '.' ∉ post := by
  obtain ⟨pre, post, hs, hpost, -⟩ := lastIndexOfFrom_mem '.' s 0 (-1) h
  exact ⟨pre, post, hs, hpost⟩

theorem onlyAt_refl (index : Int) (s : State) : OnlyAt index s s :=
  ⟨fun _ _ => rfl, rfl, rfl, rfl, fun _ => rfl⟩

theorem onlyAt_guarded (s : State) (index : Int) (g : FileState → FileState) :
    OnlyAt index s (if inRange s index then updateItem s index g else s) := by
  cases h : inRange s index with
  | false => simpa using onlyAt_refl index s
  | true =>
    simp only [if_true]
    have h0 : 0 ≤ index := by
      simp only [inRange, Bool.and_eq_true, decide_eq_true_eq] at h
      exact h.1
    exact ⟨fun j hj => getItem_updateItem_of_ne s h0 hj g, by simp [updateItem], rfl, rfl,
      fun hf => by rw [h] at hf; cases hf⟩

/-- C15: each of the mutations `setFileNeedsInfo`, `setRemoteFile`, `setFileReader`,
`setRawFileInfo` and `setFileError` leaves every item other than the one at `index`, the
length of the file list, the progress object and the loading flag unchanged, and leaves the
whole state unchanged when `index` is out of range; `deleteFile` at an index in range
removes exactly that item, the items before it keeping their positions and the items after
it moving down by one, and changes nothing when the index is out of range. -/
theorem mutations_change_only_index (s : State) (index : Int) (file : File)
    (reader : Option ReaderBundle) (info : Option RawInfo) (error : Option ErrorValue) :
    OnlyAt index s (setFileNeedsInfo s index) ∧
    OnlyAt index s (setRemoteFile s index file) ∧
    OnlyAt index s (setFileReader s index reader) ∧
    OnlyAt index s (setRawFileInfo s index info) ∧
    OnlyAt index s (setFileError s index error) ∧
    (deleteFile s index).fileList =
      (if inRange s index then
        s.fileList.take index.toNat ++ s.fileList.drop (index.toNat + 1)
      else s.fileList) ∧
    (deleteFile s index).fileList.length =
      (if inRange s index then s.fileList.length - 1 else s.fileList.length) ∧
    (∀ j : Int, j < index → getItem (deleteFile s index).fileList j = getItem s.fileList j) ∧
    (∀ j : Int, index ≤ j → inRange s index = true →
      getItem (deleteFile s index).fileList j = getItem s.fileList (j + 1)) ∧
    (deleteFile s index).progress = s.progress ∧
    (deleteFile s index).loading = s.loading := by
  refine ⟨onlyAt_guarded s index _, onlyAt_guarded s index _, ?_, ?_, ?_, ?_, ?_, ?_, ?_, ?_, ?_⟩
  · cases reader with
    | none => exact onlyAt_refl index s
    | some r => exact onlyAt_guarded s index _
  · cases info with
    | none => exact onlyAt_refl index s
    | some r => exact onlyAt_guarded s index _
  · cases error with
    | none => exact onlyAt_refl index s
    | some e =>
      simp only [setFileError]
      cases he : e.truthy with
      | false => simpa using onlyAt_refl index s
      | true => simpa using onlyAt_guarded s index _
  · unfold deleteFile
    split
    · simp [List.eraseIdx_eq_take_drop_succ]
    · rfl
  · unfold deleteFile
    split
    · rename_i h
      simp only [inRange, Bool.and_eq_true, decide_eq_true_eq] at h
      rw [List.length_eraseIdx]
      have : index.toNat < s.fileList.length := by omega
      simp [this]
    · rfl
  · intro j hj
    unfold deleteFile
    split
    · unfold getItem
      by_cases hj0 : 0 ≤ j
      · simp only [hj0, if_true, List.get?_eq_getElem?]
        exact List.getElem?_eraseIdx_of_lt _ _ _ (by omega)
      · simp [hj0]
    · rfl
  · intro j hj hin
    unfold deleteFile
    simp only [hin, if_true]
    simp only [inRange, Bool.and_eq_true, decide_eq_true_eq] at hin
    unfold getItem
    have hj0 : 0 ≤ j := by omega
    have hj1 : 0 ≤ j + 1 := by omega
    simp only [hj0, hj1, if_true, List.get?_eq_getElem?]
    rw [List.getElem?_eraseIdx_of_ge _ _ _ (by omega)]
    congr 1
    omega
  · unfold deleteFile
    split <;> rfl
  · unfold deleteFile
    split <;> rfl

theorem mutations_change_only_index_witness :
    getItem (deleteFile (storeOf [localItem "a.vti" [], localItem "b.vti" [],
        localItem "c.vti" []]) 1).fileList 1
      = getItem (storeOf [localItem "a.vti" [], localItem "b.vti" [],
        localItem "c.vti" []]).fileList (1 + 1) :=
  (mutations_change_only_index
    (storeOf [localItem "a.vti" [], localItem "b.vti" [], localItem "c.vti" []]) 1
    { name := "d.vti", bytes := [] } none none none).2.2.2.2.2.2.2.2.1 1 (by decide) (by decide)

/-! ## Terminal states -/

/-- C14 on the code: with one ready image and one ready labelmap, and a proxy manager that
lists a `TrivialProducer` source for every registered dataset, `load` registers the image,
then the labelmap, and attaches the labelmap with `imageId` equal to the labelmap's own
proxy id, not to the id of the image; it then sets the labelmap state to (1, 1). -/
theorem load_labelmap_attached_to_itself :
    (load Scene.simple
      (storeOf [readyItem "image.vti" (imageBundle "image.vti"),
        labelmapItem "labels.vti" (imageBundle "labels.vti")]) []).pm
      = [{ proxyId := "image.vti", proxyName := "TrivialProducer" },
         { proxyId := "labels.vti", proxyName := "TrivialProducer" }] ∧
    attachments (load Scene.simple
      (storeOf [readyItem "image.vti" (imageBundle "image.vti"),
        labelmapItem "labels.vti" (imageBundle "labels.vti")]) []).events
      = [("labels.vti", "labels.vti")] ∧
    (load Scene.simple
      (storeOf [readyItem "image.vti" (imageBundle "image.vti"),
        labelmapItem "labels.vti" (imageBundle "labels.vti")]) []).events.getLast?
      = some (SceneEvent.setLabelmapState "labels.vti" 1 1) := by
  decide

/-! ## Archive expansion -/

theorem zipWalk_topFiles (zip : Zip) (exts : List String) (fuel : Nat) :
    ∀ (calls : List (Option String)) (visited : List (String × ZipObject))
      (calls2 : List (Option String)) (items : List ZipItem),
      zipWalk zip exts fuel calls visited = .ok (calls2, items) →
      topFiles items = (supportedLeaves exts visited).map filePromise := by
  induction fuel with
  | zero =>
    intro calls visited calls2 items h
    cases visited with
    | nil =>
      simp only [zipWalk, Except.ok.injEq, Prod.mk.injEq] at h
      rw [← h.2]; rfl
    | cons e rest => simp [zipWalk] at h
  | succ n ih =>
    intro calls visited calls2 items h
    cases visited with
    | nil =>
      simp only [zipWalk, Except.ok.injEq, Prod.mk.injEq] at h
      rw [← h.2]; rfl
    | cons e rest =>
      obtain ⟨relPath, file⟩ := e
      simp only [zipWalk] at h
      by_cases hdir : file.dir = true
      · simp only [hdir, if_true] at h
        cases h1 : zipWalk zip exts n (calls ++ [some relPath])
            (zip.forEach calls (some relPath)) with
        | error e => simp [h1] at h
        | ok r1 =>
          obtain ⟨calls1, inner⟩ := r1
          simp only [h1] at h
          cases h2 : zipWalk zip exts n calls1 rest with
          | error e => simp [h2] at h
          | ok r2 =>
            obtain ⟨calls3, promises⟩ := r2
            simp only [h2, Except.ok.injEq, Prod.mk.injEq] at h
            rw [← h.2]
            simp only [topFiles, ih _ _ _ _ h2, supportedLeaves, List.filter_cons, hdir,
              Bool.not_true, Bool.false_and]
            rfl
      · simp only [hdir] at h
        by_cases hext : getExtension file.name ∈ exts
        · simp only [hext, if_true] at h
          cases h2 : zipWalk zip exts n calls rest with
          | error e => simp [h2] at h
          | ok r2 =>
            obtain ⟨calls3, promises⟩ := r2
            simp only [h2] at h
            simp only [Bool.false_eq_true, if_false, Except.ok.injEq, Prod.mk.injEq] at h
            rw [← h.2]
            have hd : file.dir = false := by simpa using hdir
            simp [topFiles, ih _ _ _ _ h2, supportedLeaves, List.filter_cons, hd, hext]
        · simp only [hext, if_false, Bool.false_eq_true] at h
          have hd : file.dir = false := by simpa using hdir
          rw [ih _ _ _ _ h]
          simp [supportedLeaves, List.filter_cons, hd, hext]

theorem zipWalk_files_only (zip : Zip) (exts : List String) (fuel : Nat) :
    ∀ (calls : List (Option String)) (visited : List (String × ZipObject)),
      (∀ e ∈ visited, e.2.dir = false) → visited.length ≤ fuel →
      ∃ items, zipWalk zip exts fuel calls visited = .ok (calls, items) := by
  induction fuel with
  | zero =>
    intro calls visited _ hlen
    have : visited = [] := List.length_eq_zero.mp (Nat.le_zero.mp hlen)
    subst this
    exact ⟨[], rfl⟩
  | succ n ih =>
    intro calls visited hfiles hlen
    cases visited with
    | nil => exact ⟨[], by simp [zipWalk]⟩
    | cons e rest =>
      obtain ⟨relPath, file⟩ := e
      have hd : file.dir = false := hfiles (relPath, file) (List.mem_cons_self _ _)
      obtain ⟨items, hitems⟩ := ih calls rest
        (fun x hx => hfiles x (List.mem_cons_of_mem _ hx))
        (by simp only [List.length_cons] at hlen; omega)
      by_cases hext : getExtension file.name ∈ exts
      · exact ⟨ZipItem.file (filePromise file) :: items, by simp [zipWalk, hd, hext, hitems]⟩
      · exact ⟨items, by simp [zipWalk, hd, hext, hitems]⟩

theorem toLower_eq_slash_iff (c : Char) : c.toLower = '/' ↔ c = '/' := by
  unfold Char.toLower
  by_cases hr : c.toNat ≥ 65 ∧ c.toNat ≤ 90
  · simp only [hr, and_self, if_true]
    have hc : c ≠ '/' := by
      intro e
      rw [e] at hr
      exact absurd hr (by decide)
    obtain ⟨h1, h2⟩ := hr
    constructor
    · intro h
      exfalso
      revert h
      generalize c.toNat = n at h1 h2
      interval_cases n <;> decide
    · intro h
      exact absurd h hc
  · simp only [hr, if_false]

theorem getExtension_baseName (name : String) (h : '/' ∉ (getExtension name).data) :
    getExtension (baseName name) = getExtension name := by
  by_cases hdot : '.' ∈ name.data
  · obtain ⟨pre, post, hs, hpost⟩ := exists_last_dot name.data hdot
    rw [getExtension_split name pre post hs hpost] at h ⊢
    have hslash : '/' ∉ post := by
      intro hm
      apply h
      simp only [toLowerCase, List.mem_map]
      exact ⟨'/', hm, (toLower_eq_slash_iff '/').mpr rfl⟩
    by_cases hsl : '/' ∈ name.data
    · obtain ⟨a, b, hab, hb, hidx⟩ := lastIndexOfFrom_mem '/' name.data 0 (-1) hsl
      have hbase : (baseName name).data = b := by
        have hnat : ((0 : Int) + (a.length : Int) + 1).toNat = a.length + 1 := by omega
        simp only [baseName, lastIndexOf, hidx, Nat.cast_zero, hnat]
        rw [hab, List.drop_append_eq_append_drop]
        simp
      have heq : pre ++ '.' :: post = a ++ '/' :: b := hs.symm.trans hab
      rcases List.append_eq_append_iff.mp heq with ⟨c, h1, h2⟩ | ⟨c, h1, h2⟩
      · cases c with
        | nil =>
          simp only [List.nil_append, List.cons.injEq] at h2
          exact absurd h2.1 (by decide)
        | cons y ys =>
          simp only [List.cons_append, List.cons.injEq] at h2
          exact absurd (by rw [h2.2]; simp) hslash
      · cases c with
        | nil =>
          simp only [List.nil_append, List.cons.injEq] at h2
          exact absurd h2.1 (by decide)
        | cons y ys =>
          simp only [List.cons_append, List.cons.injEq] at h2
          exact getExtension_split (baseName name) ys post (hbase.trans h2.2) hpost
    · have hbase : (baseName name).data = name.data := by
        simp [baseName, lastIndexOf, lastIndexOfFrom_not_mem '/' name.data 0 (-1) hsl]
      exact getExtension_split (baseName name) pre post (hbase.trans hs) hpost
  · have hbase : '.' ∉ (baseName name).data := by
      intro hm
      exact hdot (List.mem_of_mem_drop hm)
    rw [getExtension_no_dot _ hbase, getExtension_no_dot name hdot]

theorem mem_supportedLeaves (exts : List String) (visited : List (String × ZipObject))
    (e : String × ZipObject) (he : e ∈ visited) (hd : e.2.dir = false)
    (hext : getExtension e.2.name ∈ exts) : e.2 ∈ supportedLeaves exts visited := by
  unfold supportedLeaves
  exact List.mem_map.mpr ⟨e, List.mem_filter.mpr ⟨he, by simp [hd, hext]⟩, rfl⟩

/-- C11, as stated, fails: the archive `outer.zip` holds `inner.zip` and `notes.txt`; one
expansion step keeps `inner.zip`, whose extension is `zip`, and `openFiles` needs a second
expansion round to reach the file `data.vti` inside it. -/
theorem expansion_keeps_archives_counterexample :
    expandZip Env.nestedArchive 2 { name := "outer.zip", bytes := [] }
      = .resolved [Expanded.file { name := "inner.zip", bytes := [80, 75] }] ∧
    getExtension "inner.zip" = "zip" ∧
    namesOf (openFiles Env.nestedArchive 2 2 (storeOf [])
      [{ name := "outer.zip", bytes := [] }]).1 = ["data.vti"] := by
  decide

/-- C11 amended: `getSupportedExtensions()` contains `zip`.  When one expansion step
`zipGetSupportedFiles(zip, path)` returns, the file promises at the top level of its array
are those of the non-directory entries visited whose extension is supported, in order,
each under its base name; so a visited file entry with extension `zip` is kept, and the
file made for it has extension `zip` again.  The step returns whenever no visited entry is
a directory.  When the expanded lists hold files only, `openFiles` dispatches itself on
the other files of the batch followed by the expanded files. -/
theorem zipGetSupportedFiles_keeps_supported (env : Env) (zip : Zip) (fuel rounds : Nat)
    (calls calls2 : List (Option String)) (path : Option String) (items : List ZipItem)
    (s : State) (files expanded : List File) (results : List (List Expanded))
    (h : zipGetSupportedFiles env zip fuel calls path = .ok (calls2, items)) :
    "zip" ∈ getSupportedExtensions env ∧
    topFiles items
      = (supportedLeaves (getSupportedExtensions env) (zip.forEach calls path)).map
          filePromise ∧
    (∀ e ∈ zip.forEach calls path, e.2.dir = false → getExtension e.2.name = "zip" →
      filePromise e.2 ∈ topFiles items ∧ getExtension (baseName e.2.name) = "zip") ∧
    ((∀ e ∈ zip.forEach calls path, e.2.dir = false) →
      ∀ n, (zip.forEach calls path).length ≤ n →
        ∃ promises, zipGetSupportedFiles env zip n calls path
          = .ok (calls ++ [path], promises)) ∧
    (files.filter (fun f => decide (getExtension f.name = "zip")) ≠ [] →
      promiseAll ((files.filter (fun f => decide (getExtension f.name = "zip"))).map
        (expandZip env fuel)) = .resolved results →
      filesOnly results.flatten = some expanded →
      (openFiles env fuel (rounds + 1) s files).1
        = (openFiles env fuel rounds s
            (files.filter (fun f => !decide (getExtension f.name = "zip")) ++ expanded)).1) := by
  have htop := zipWalk_topFiles zip (getSupportedExtensions env) fuel _ _ _ _ h
  refine ⟨by simp [getSupportedExtensions], htop, ?_, ?_, ?_⟩
  · intro e he hd hext
    have hsup : getExtension e.2.name ∈ getSupportedExtensions env := by
      rw [hext]; simp [getSupportedExtensions]
    refine ⟨?_, ?_⟩
    · rw [htop]
      exact List.mem_map.mpr ⟨e.2, mem_supportedLeaves _ _ e he hd hsup, rfl⟩
    · have hslash : '/' ∉ (getExtension e.2.name).data := by rw [hext]; decide
      rw [getExtension_baseName e.2.name hslash, hext]
  · intro hfiles n hn
    exact zipWalk_files_only zip (getSupportedExtensions env) n _ _ hfiles hn
  · intro hz hres hfo
    have hlen : (files.filter (fun f => decide (getExtension f.name = "zip"))).length ≠ 0 := by
      intro h0
      exact hz (List.length_eq_zero.mp h0)
    rw [openFiles]
    simp only [hlen, ne_eq, not_false_eq_true, if_true, hres, hfo]
    cases hrun : openFiles env fuel rounds s
        (files.filter (fun f => !decide (getExtension f.name = "zip")) ++ expanded) with
    | mk st res => cases res <;> rfl

theorem zipGetSupportedFiles_keeps_supported_witness :
    filePromise (zipFile "inner.zip" [80, 75]).2
        ∈ topFiles [ZipItem.file (filePromise (zipFile "inner.zip" [80, 75]).2)] ∧
      getExtension (baseName (zipFile "inner.zip" [80, 75]).2.name) = "zip" :=
  (zipGetSupportedFiles_keeps_supported Env.nestedArchive outerArchive 2 0 [] [none] none
    [ZipItem.file (filePromise (zipFile "inner.zip" [80, 75]).2)] (storeOf []) [] [] []
    rfl).2.2.1 (zipFile "inner.zip" [80, 75]) (by simp [outerArchive]) rfl (by decide)

theorem attachments_append (a b : List SceneEvent) :
    attachments (a ++ b) = attachments a ++ attachments b := by
  simp [attachments, List.filterMap_append]

theorem attachments_registrations {PM : Type} (scene : Scene PM) (files : List FileState) :
    attachments (files.filterMap (registrationOf scene)) = [] := by
  induction files with
  | nil => rfl
  | cons f rest ih =>
    cases hr : f.reader with
    | none => simpa [List.filterMap_cons, registrationOf, hr] using ih
    | some r =>
      simp only [List.filterMap_cons, registrationOf, hr, Option.map_some']
      simpa [attachments] using ih

theorem attachments_measurementEvents (lastSourcePID : String) (files : List FileState)
    (events : List SceneEvent) :
    attachments (measurementEvents lastSourcePID files events).1 = attachments events := by
  induction files generalizing events with
  | nil => rfl
  | cons f rest ih =>
    simp only [measurementEvents]
    split
    · rfl
    · split
      · rfl
      · exact ih events
      · rw [ih, attachments_append]
        simp [attachments, List.filterMap_map, Function.comp_def]

theorem registerReadyFiles_attachments {PM : Type} (scene : Scene PM)
    (readyFiles : List FileState) (pm : PM) (events : List SceneEvent)
    (h : ∀ f ∈ readyFiles, f.reader ≠ none) :
    ∃ (pm2 : PM) (loadedLabelmaps : List Proxy),
      (registerReadyFiles scene readyFiles pm events).pm = pm2 ∧
      attachments (registerReadyFiles scene readyFiles pm events).events
        = attachments events ++
          (match ((scene.getSources pm2).filter
              (fun p => decide (p.proxyName = "TrivialProducer"))).getLast? with
            | none => []
            | some lastSource =>
              loadedLabelmaps.map (fun lmProxy => (lastSource.proxyId, lmProxy.proxyId))) := by
  have hreg : ∀ f ∈ regularFilesOf (readyFiles.filter (fun f => !decide (f.ext = "glance"))),
      f.reader ≠ none := by
    intro f hf
    exact h f (List.mem_of_mem_filter (List.mem_of_mem_filter hf))
  have hlab : ∀ f ∈ labelmapFilesOf (readyFiles.filter (fun f => !decide (f.ext = "glance"))),
      f.reader ≠ none := by
    intro f hf
    exact h f (List.mem_of_mem_filter (List.mem_of_mem_filter hf))
  obtain ⟨pm1, ret1, h1⟩ := loadFiles_all scene _ pm events [] hreg
  obtain ⟨pm2, ret2, h2⟩ := loadFiles_all scene _ pm1
    (events ++ (regularFilesOf
      (readyFiles.filter (fun f => !decide (f.ext = "glance")))).filterMap (registrationOf scene))
    [] hlab
  refine ⟨pm2, ret2, ?_, ?_⟩
  · unfold registerReadyFiles
    simp only [h1, h2]
    split <;> rfl
  · unfold registerReadyFiles
    simp only [h1, h2]
    split
    · rename_i hnone
      simp [hnone, attachments_append, attachments_registrations]
    · rename_i lastSource hsome
      simp only [hsome, attachments_append, attachments_measurementEvents,
        attachments_registrations, List.append_nil]
      have hnone : ∀ l : List Proxy, List.filterMap (fun _ : Proxy => (none : Option (String × String))) l
          = [] := by
        intro l
        induction l with
        | nil => rfl
        | cons a l ih => simp [List.filterMap_cons]
      have hsomes : ∀ l : List Proxy,
          List.filterMap (fun x : Proxy => some (lastSource.proxyId, x.proxyId)) l
            = l.map (fun lmProxy => (lastSource.proxyId, lmProxy.proxyId)) := by
        intro l
        induction l with
        | nil => rfl
        | cons a l ih => simp [List.filterMap_cons, ih]
      simp [attachments, List.filterMap_map, Function.comp_def, hnone, hsomes]

end FileLoader
